import Mathlib

set_option maxHeartbeats 1000000

namespace ECSPy

/-- Runtime error raised by a Python dictionary, set, or call operation. -/
inductive PyErr where
  | keyError : PyErr
  | typeError : PyErr
deriving DecidableEq, Repr

/-- A Python object serving as a component instance: `ty` is its runtime
type (what `type(component_instance)` returns in the source, encoded as a
numeric type tag) and `val` distinguishes instances of the same type. -/
structure PyObj where
  ty : Nat
  val : Nat
deriving DecidableEq, Repr

/-- Lookup in an insertion-ordered association list (an inner Python dict,
such as one row of `Manager._entities`). -/
def dget {α : Type} : List (Nat × α) → Nat → Option α
  | [], _ => none
  | (k, v) :: t, k2 => if k2 = k then some v else dget t k2

/-- Python dict assignment `d[k] = v`: updates the value in place when the
key is present (keeping its position) and appends the pair otherwise. -/
def dset {α : Type} : List (Nat × α) → Nat → α → List (Nat × α)
  | [], k, v => [(k, v)]
  | (k2, v2) :: t, k, v => if k = k2 then (k, v) :: t else (k2, v2) :: dset t k v

/-- Python dict deletion `del d[k]`: removes the (unique) entry with key
`k`; on a duplicate-free list removing the first occurrence is removing
the only one. -/
def ddel {α : Type} : List (Nat × α) → Nat → List (Nat × α)
  | [], _ => []
  | (k2, v2) :: t, k => if k = k2 then t else (k2, v2) :: ddel t k

/-- Python `set.add` on a set represented as a duplicate-free list. -/
def sadd (s : List Nat) (e : Nat) : List Nat :=
  if e ∈ s then s else s ++ [e]

/-- Python `set.discard`, which never raises. -/
def sdiscard (s : List Nat) (e : Nat) : List Nat :=
  s.filter (fun x => x != e)

/-- Point update of an outer Python dict, modelled as a map to `Option`. -/
def fupdate {α : Type} (f : Nat → Option α) (k : Nat) (v : Option α) :
    Nat → Option α :=
  fun k2 => if k2 = k then v else f k2

/-- The database part of a `Manager`, holding the fields initialized by
`Manager.__init__`: `_next_entity_id`, `_entities` (entity id to row, a
row being a component-type-to-instance dict), `_components` (component
type to set of entity ids), and `_dead_entities`. -/
@[ext]
structure DB where
  nextEntityId : Nat
  entities : Nat → Option (List (Nat × PyObj))
  components : Nat → Option (List Nat)
  deadEntities : List Nat

/-- The freshly constructed database of `Manager.__init__`. -/
def DB.empty : DB :=
  { nextEntityId := 0
    entities := fun _ => none
    components := fun _ => none
    deadEntities := [] }

/-- Modelled from the spec: `SystemTemplate.py` is not under `src/`.  Per
the spec a system exposes a `process(args...)` operation that may call
back into the Manager's entity/component operations — so it may mutate
the database and may raise — together with a mutable owning-manager
back-reference slot that `add_system` sets and `remove_system` clears,
modelled as the Boolean `mgrRef`.  `tyId` encodes the system's runtime
class.  `proc` returns the outcome together with the post-call database
(the database reached so far when the outcome is an error). -/
structure PySystem where
  tyId : Nat
  mgrRef : Bool
  proc : List Nat → DB → Except PyErr Unit × DB

/-- A `Manager`: the database plus the ordered `_systems` registry. -/
structure Manager where
  db : DB
  systems : List PySystem

/-- A freshly constructed `Manager`. -/
def Manager.empty : Manager :=
  { db := DB.empty, systems := [] }

/-- `Manager.clear_database`: clears `_components`, `_entities` and
`_dead_entities` and resets `_next_entity_id` to 0. -/
def clearDatabase (_db : DB) : DB := DB.empty

/-- `Manager.add_component_to_entity(component_instance, entity)`:
lazily creates the type's index set, adds the entity to it, lazily
creates the entity's row, and sets (or overwrites) the type-to-instance
mapping.  Total: the source raises nothing here. -/
def addComponentToEntity (c : PyObj) (e : Nat) (db : DB) : DB :=
  let s := (db.components c.ty).getD []
  let s2 := sadd s e
  let r := (db.entities e).getD []
  let r2 := dset r c.ty c
  { db with
    components := fupdate db.components c.ty (some s2)
    entities := fupdate db.entities e (some r2) }

/-- `Manager.new_entity(*components)`: increments `_next_entity_id`,
installs an empty row under the new id, then adds each supplied
component in order.  Returns the new id with the new database. -/
def newEntity (comps : List PyObj) (db : DB) : Nat × DB :=
  let nid := db.nextEntityId + 1
  let db1 := { db with
    nextEntityId := nid
    entities := fupdate db.entities nid (some []) }
  (nid, comps.foldl (fun d c => addComponentToEntity c nid d) db1)

/-- `Manager.remove_component_from_entity(component_type, entity)`:
`self._components[component_type]` (KeyError when the type has no
index), `.discard(entity)`, delete the index if now empty, then
`del self._entities[entity][component_type]` (KeyError when the entity
or the type entry is missing — note the discard has already happened),
and delete the row if now empty.  Returns the outcome together with the
database reached, which on an error includes any mutation made before
the raise. -/
def removeComponentFromEntity (T e : Nat) (db : DB) :
    Except PyErr Unit × DB :=
  match db.components T with
  | none => (.error .keyError, db)
  | some s =>
    let s2 := sdiscard s e
    let db1 :=
      if s2.isEmpty then { db with components := fupdate db.components T none }
      else { db with components := fupdate db.components T (some s2) }
    match db1.entities e with
    | none => (.error .keyError, db1)
    | some r =>
      match dget r T with
      | none => (.error .keyError, db1)
      | some _ =>
        let r2 := ddel r T
        if r2.isEmpty then
          (.ok (), { db1 with entities := fupdate db1.entities e none })
        else
          (.ok (), { db1 with entities := fupdate db1.entities e (some r2) })

/-- The loop body of `Manager.remove_entity(entity, immediate=True)`:
`for component_type in self._entities[entity]: self._components[ct]
.discard(entity); if not self._components[ct]: del self._components[ct]`.
`self._components[ct]` raises KeyError when the type has no index, and
the loop stops there with the mutations made so far. -/
def discardFromIndexes (e : Nat) : List Nat → DB → Except PyErr Unit × DB
  | [], db => (.ok (), db)
  | T :: ts, db =>
    match db.components T with
    | none => (.error .keyError, db)
    | some s =>
      let s2 := sdiscard s e
      let db1 :=
        if s2.isEmpty then { db with components := fupdate db.components T none }
        else { db with components := fupdate db.components T (some s2) }
      discardFromIndexes e ts db1

/-- `Manager.remove_entity(entity, immediate)`: when `immediate`,
iterates the entity's row (KeyError when the entity is unknown),
discards it from each of those component-type indexes, then deletes the
row.  Otherwise just adds the id to `_dead_entities`. -/
def removeEntity (e : Nat) (immediate : Bool) (db : DB) :
    Except PyErr Unit × DB :=
  if immediate then
    match db.entities e with
    | none => (.error .keyError, db)
    | some r =>
      match discardFromIndexes e (r.map Prod.fst) db with
      | (.ok _, db1) => (.ok (), { db1 with entities := fupdate db1.entities e none })
      | (.error err, db1) => (.error err, db1)
  else
    (.ok (), { db with deadEntities := sadd db.deadEntities e })

/-- `Manager.get_component_from_entity(component_type, entity)`:
`self._entities[entity][component_type]`, KeyError when either is
missing. -/
def getComponentFromEntity (T e : Nat) (db : DB) : Except PyErr PyObj :=
  match db.entities e with
  | none => .error .keyError
  | some r =>
    match dget r T with
    | none => .error .keyError
    | some c => .ok c

/-- `Manager.get_all_components_from_entity(entity)`:
`tuple(self._entities[entity].values())`, KeyError when the entity is
unknown. -/
def getAllComponentsFromEntity (e : Nat) (db : DB) :
    Except PyErr (List PyObj) :=
  match db.entities e with
  | none => .error .keyError
  | some r => .ok (r.map Prod.snd)

/-- `Manager.has_component(entity, component_type)`:
`component_type in self._entities[entity]` — the row lookup raises
KeyError when the entity is unknown. -/
def hasComponent (e T : Nat) (db : DB) : Except PyErr Bool :=
  match db.entities e with
  | none => .error .keyError
  | some r => .ok (dget r T).isSome

/-- The yield loop of `Manager.get_component(component_type)`: for each
entity of the index set, yield `(entity, entity_db[entity][ct])`; a
missing row or entry raises KeyError out of the generator (uncaught). -/
def queryOneLoop (T : Nat) (db : DB) :
    List Nat → Except PyErr (List (Nat × PyObj))
  | [] => .ok []
  | e :: es =>
    match db.entities e with
    | none => .error .keyError
    | some r =>
      match dget r T with
      | none => .error .keyError
      | some c =>
        match queryOneLoop T db es with
        | .ok rest => .ok ((e, c) :: rest)
        | .error err => .error err

/-- `Manager.get_component(component_type)`: iterates
`self._components.get(component_type, [])`. -/
def getComponent (T : Nat) (db : DB) : Except PyErr (List (Nat × PyObj)) :=
  queryOneLoop T db ((db.components T).getD [])

/-- The list comprehension `[component_db[ct] for ct in component_types]`
inside `Manager.get_components`: `none` when some requested type has no
index (the KeyError that `except KeyError: pass` catches). -/
def lookupIndexes (db : DB) : List Nat → Option (List (List Nat))
  | [] => some []
  | T :: ts =>
    match db.components T with
    | none => none
    | some s => (lookupIndexes db ts).map (fun rest => s :: rest)

/-- `set.intersection(*sets)`: the members of the first set that belong
to every other set. -/
def intersectAll : List (List Nat) → List Nat
  | [] => []
  | s :: rest => s.filter (fun e => rest.all (fun t => t.contains e))

/-- The inner comprehension `[entity_db[entity][ct] for ct in
component_types]` of `Manager.get_components`: `none` when a lookup
raises KeyError. -/
def collectRow (db : DB) (e : Nat) : List Nat → Option (List PyObj)
  | [] => some []
  | T :: ts =>
    match db.entities e with
    | none => none
    | some r =>
      match dget r T with
      | none => none
      | some c => (collectRow db e ts).map (fun rest => c :: rest)

/-- The yield loop of `Manager.get_components`: a KeyError from the inner
comprehension is caught by `except KeyError: pass`, ending the generator
after the pairs already yielded. -/
def qmLoop (db : DB) (tys : List Nat) :
    List Nat → List (Nat × List PyObj)
  | [] => []
  | e :: es =>
    match collectRow db e tys with
    | none => []
    | some cs => (e, cs) :: qmLoop db tys es

/-- `Manager.get_components(*component_types)`: with no arguments
`set.intersection()` raises TypeError (not caught by the KeyError
handler); a missing index raises KeyError inside the comprehension,
caught to yield nothing; otherwise yields over the intersection. -/
def getComponents (tys : List Nat) (db : DB) :
    Except PyErr (List (Nat × List PyObj)) :=
  match tys with
  | [] => .error .typeError
  | _ :: _ =>
    match lookupIndexes db tys with
    | none => .ok []
    | some sets => .ok (qmLoop db tys (intersectAll sets))

/-- `Manager.add_system(system_instance)`: asserts the System contract,
sets the back-reference, and appends to `_systems`. -/
def addSystem (s : PySystem) (m : Manager) : Manager :=
  { m with systems := m.systems ++ [{ s with mgrRef := true }] }

/-- `Manager.remove_system(system_type)` iterates `self._systems` while
calling `self._systems.remove(system)` on each match, which in Python
shifts the list under the advancing iterator: the element directly after
a removed match is skipped.  Returns the kept list paired with the list
of removed systems (each with its back-reference cleared, in the order
they were removed). -/
def removeSystemScan (T : Nat) : List PySystem → List PySystem × List PySystem
  | [] => ([], [])
  | s :: rest =>
    if s.tyId = T then
      match rest with
      | [] => ([], [{ s with mgrRef := false }])
      | y :: rest2 =>
        let p := removeSystemScan T rest2
        (y :: p.1, { s with mgrRef := false } :: p.2)
    else
      let p := removeSystemScan T rest
      (s :: p.1, p.2)

/-- `Manager.remove_system` at the `Manager` level. -/
def removeSystem (T : Nat) (m : Manager) : Manager :=
  { m with systems := (removeSystemScan T m.systems).1 }

/-- The reconciliation loop of `Manager.process`:
`for entity in self._dead_entities: self.remove_entity(entity,
immediate=True)`.  A KeyError propagates with the destructions made so
far. -/
def reconcileDead : List Nat → DB → Except PyErr Unit × DB
  | [], db => (.ok (), db)
  | e :: es, db =>
    match removeEntity e true db with
    | (.ok _, db1) => reconcileDead es db1
    | (.error err, db1) => (.error err, db1)

/-- The dispatch loop of `Manager.process`:
`for system in self._systems: system.process(*args)`.  Also returns the
invocation log: one `(system runtime type, args)` entry per `process`
call actually made, in call order. -/
def dispatch (args : List Nat) :
    List PySystem → DB → Except PyErr Unit × DB × List (Nat × List Nat)
  | [], db => (.ok (), db, [])
  | s :: rest, db =>
    match s.proc args db with
    | (.error err, db1) => (.error err, db1, [(s.tyId, args)])
    | (.ok _, db1) =>
      let p := dispatch args rest db1
      (p.1, p.2.1, (s.tyId, args) :: p.2.2)

/-- `Manager.process(*args)` (the tick): if `_dead_entities` is
non-empty, destroy each pending entity immediately and then clear the
set; then call `process(*args)` on every registered system in order.
Returns the outcome, the resulting `Manager`, and the invocation log. -/
def tick (m : Manager) (args : List Nat) :
    Except PyErr Unit × Manager × List (Nat × List Nat) :=
  if m.db.deadEntities.isEmpty then
    let p := dispatch args m.systems m.db
    (p.1, { m with db := p.2.1 }, p.2.2)
  else
    match reconcileDead m.db.deadEntities m.db with
    | (.ok _, db1) =>
      let db2 := { db1 with deadEntities := [] }
      let p := dispatch args m.systems db2
      (p.1, { m with db := p.2.1 }, p.2.2)
    | (.error err, db1) => (.error err, { m with db := db1 }, [])

/-! Basic lemmas about the Python dictionary and set encodings. -/

theorem fupdate_self {α : Type} (f : Nat → Option α) (k : Nat) (v : Option α) :
    fupdate f k v k = v := by
  simp [fupdate]

theorem fupdate_ne {α : Type} (f : Nat → Option α) {k k2 : Nat} (v : Option α)
    (h : k2 ≠ k) : fupdate f k v k2 = f k2 := by
  simp [fupdate, h]

theorem fupdate_eq_self {α : Type} (f : Nat → Option α) (k : Nat) (v : Option α)
    (h : f k = v) : fupdate f k v = f := by
  funext k2
  by_cases hk : k2 = k
  · subst hk; simp [fupdate, h]
  · simp [fupdate, hk]

theorem dget_cons_self {α : Type} (t : List (Nat × α)) (k : Nat) (v : α) :
    dget ((k, v) :: t) k = some v := by
  simp [dget]

theorem dget_cons_ne {α : Type} (t : List (Nat × α)) {k k2 : Nat} (v : α)
    (h : k2 ≠ k) : dget ((k, v) :: t) k2 = dget t k2 := by
  simp [dget, h]

theorem dset_cons_self {α : Type} (t : List (Nat × α)) (k : Nat) (v v2 : α) :
    dset ((k, v2) :: t) k v = (k, v) :: t := by
  simp [dset]

theorem dset_cons_ne {α : Type} (t : List (Nat × α)) {k k2 : Nat} (v v2 : α)
    (h : k ≠ k2) : dset ((k2, v2) :: t) k v = (k2, v2) :: dset t k v := by
  simp [dset, h]

theorem ddel_cons_self {α : Type} (t : List (Nat × α)) (k : Nat) (v : α) :
    ddel ((k, v) :: t) k = t := by
  simp [ddel]

theorem ddel_cons_ne {α : Type} (t : List (Nat × α)) {k k2 : Nat} (v : α)
    (h : k ≠ k2) : ddel ((k2, v) :: t) k = (k2, v) :: ddel t k := by
  simp [ddel, h]

theorem dget_dset_self {α : Type} (l : List (Nat × α)) (k : Nat) (v : α) :
    dget (dset l k v) k = some v := by
  induction l with
  | nil => simp [dget, dset]
  | cons p t ih =>
    obtain ⟨k2, v2⟩ := p
    by_cases hk : k = k2
    · subst hk; simp [dget, dset]
    · simp [dget, dset, hk, Ne.symm hk, ih]

theorem dget_dset_ne {α : Type} (l : List (Nat × α)) {k k2 : Nat} (v : α)
    (h : k2 ≠ k) : dget (dset l k v) k2 = dget l k2 := by
  induction l with
  | nil => simp [dget, dset, h]
  | cons p t ih =>
    obtain ⟨k3, v3⟩ := p
    by_cases hk : k = k3
    · subst hk; simp [dget, dset, h]
    · by_cases hk2 : k2 = k3
      · subst hk2; simp [dget, dset, hk]
      · simp [dget, dset, hk, hk2, ih]

theorem dget_isSome_iff_mem_keys {α : Type} (l : List (Nat × α)) (k : Nat) :
    (dget l k).isSome ↔ k ∈ l.map Prod.fst := by
  induction l with
  | nil => simp [dget]
  | cons p t ih =>
    obtain ⟨k2, v2⟩ := p
    by_cases hk : k = k2
    · subst hk; simp [dget]
    · simp [dget, hk, ih]

theorem keys_dset_subset {α : Type} (l : List (Nat × α)) (k k2 : Nat) (v : α)
    (h : k2 ∈ (dset l k v).map Prod.fst) : k2 ∈ l.map Prod.fst ∨ k2 = k := by
  induction l with
  | nil =>
    simp only [dset, List.map_cons, List.map_nil, List.mem_singleton] at h
    exact Or.inr h
  | cons p t ih =>
    obtain ⟨k3, v3⟩ := p
    by_cases hk : k = k3
    · subst hk
      rw [dset_cons_self] at h
      simp only [List.map_cons, List.mem_cons] at h
      rcases h with h | h
      · exact Or.inr h
      · exact Or.inl (List.mem_cons_of_mem _ h)
    · rw [dset_cons_ne t v v3 hk] at h
      simp only [List.map_cons, List.mem_cons] at h
      rcases h with h | h
      · exact Or.inl (by simp only [List.map_cons, List.mem_cons]; exact Or.inl h)
      · rcases ih h with h2 | h2
        · exact Or.inl (List.mem_cons_of_mem _ h2)
        · exact Or.inr h2

theorem nodup_keys_dset {α : Type} (l : List (Nat × α)) (k : Nat) (v : α)
    (h : (l.map Prod.fst).Nodup) : ((dset l k v).map Prod.fst).Nodup := by
  induction l with
  | nil => simp [dset]
  | cons p t ih =>
    obtain ⟨k3, v3⟩ := p
    simp only [List.map_cons, List.nodup_cons] at h
    by_cases hk : k = k3
    · subst hk
      rw [dset_cons_self]
      simp only [List.map_cons, List.nodup_cons]
      exact ⟨h.1, h.2⟩
    · rw [dset_cons_ne t v v3 hk]
      simp only [List.map_cons, List.nodup_cons]
      refine ⟨fun hmem => ?_, ih h.2⟩
      rcases keys_dset_subset t k k3 v hmem with h2 | h2
      · exact h.1 h2
      · exact hk (h2.symm)

theorem dget_ddel_self {α : Type} (l : List (Nat × α)) (k : Nat)
    (h : (l.map Prod.fst).Nodup) : dget (ddel l k) k = none := by
  induction l with
  | nil => simp [dget, ddel]
  | cons p t ih =>
    obtain ⟨k2, v2⟩ := p
    simp only [List.map_cons, List.nodup_cons] at h
    by_cases hk : k = k2
    · subst hk
      rw [ddel_cons_self]
      rcases h2 : dget t k with _ | c
      · rfl
      · have : k ∈ t.map Prod.fst := by
          rw [← dget_isSome_iff_mem_keys, h2]; rfl
        exact absurd this h.1
    · rw [ddel_cons_ne t v2 hk, dget_cons_ne _ v2 hk]
      exact ih h.2

theorem dget_ddel_ne {α : Type} (l : List (Nat × α)) {k k2 : Nat}
    (h : k2 ≠ k) : dget (ddel l k) k2 = dget l k2 := by
  induction l with
  | nil => simp [ddel]
  | cons p t ih =>
    obtain ⟨k3, v3⟩ := p
    by_cases hk : k = k3
    · subst hk
      simp [ddel, dget, h]
    · by_cases hk2 : k2 = k3
      · subst hk2; simp [ddel, hk, dget]
      · simp [ddel, hk, dget, hk2, ih]

theorem keys_ddel_sublist {α : Type} (l : List (Nat × α)) (k : Nat) :
    ((ddel l k).map Prod.fst).Sublist (l.map Prod.fst) := by
  induction l with
  | nil => simp [ddel]
  | cons p t ih =>
    obtain ⟨k2, v2⟩ := p
    by_cases hk : k = k2
    · subst hk
      rw [ddel_cons_self]
      simp only [List.map_cons]
      exact List.Sublist.cons _ (List.Sublist.refl _)
    · rw [ddel_cons_ne t v2 hk]
      simp only [List.map_cons]
      exact ih.cons₂ _

theorem nodup_keys_ddel {α : Type} (l : List (Nat × α)) (k : Nat)
    (h : (l.map Prod.fst).Nodup) : ((ddel l k).map Prod.fst).Nodup :=
  (keys_ddel_sublist l k).nodup h

theorem mem_sadd (s : List Nat) (e x : Nat) :
    x ∈ sadd s e ↔ x ∈ s ∨ x = e := by
  by_cases h : e ∈ s
  · simp [sadd, h]
    intro hx
    subst hx
    exact h
  · simp [sadd, h]

theorem nodup_sadd (s : List Nat) (e : Nat) (h : s.Nodup) :
    (sadd s e).Nodup := by
  by_cases he : e ∈ s
  · simpa [sadd, he] using h
  · simp [sadd, he]
    exact List.Nodup.append h (List.nodup_singleton e) (by simpa using he)

theorem sadd_ne_nil (s : List Nat) (e : Nat) : sadd s e ≠ [] := by
  by_cases he : e ∈ s
  · simp [sadd, he]
    rintro rfl
    exact List.not_mem_nil e he
  · simp [sadd, he]

theorem mem_sdiscard (s : List Nat) (e x : Nat) :
    x ∈ sdiscard s e ↔ x ∈ s ∧ x ≠ e := by
  simp [sdiscard, List.mem_filter]

theorem nodup_sdiscard (s : List Nat) (e : Nat) (h : s.Nodup) :
    (sdiscard s e).Nodup :=
  h.filter _

theorem sdiscard_eq_self (s : List Nat) (e : Nat) (h : e ∉ s) :
    sdiscard s e = s := by
  apply List.filter_eq_self.2
  intro x hx
  simp
  rintro rfl
  exact h hx

/-- The Manager database invariant: index sets are non-empty and
duplicate-free (Python sets), rows and the pending set are
duplicate-free (Python dict keys and sets), and the component-type
index and the entity table agree in both directions. -/
structure Inv (db : DB) : Prop where
  idxNonempty : ∀ T s, db.components T = some s → s ≠ []
  idxNodup : ∀ T s, db.components T = some s → s.Nodup
  rowNodup : ∀ e r, db.entities e = some r → (r.map Prod.fst).Nodup
  deadNodup : db.deadEntities.Nodup
  idxToRow : ∀ T e s, db.components T = some s → e ∈ s →
      ∃ r, db.entities e = some r ∧ (dget r T).isSome
  rowToIdx : ∀ e r T, db.entities e = some r → (dget r T).isSome →
      ∃ s, db.components T = some s ∧ e ∈ s

theorem inv_empty : Inv DB.empty := by
  constructor <;> intros <;> simp_all [DB.empty]

theorem inv_clearDatabase (db : DB) : Inv (clearDatabase db) :=
  inv_empty

theorem addComponent_components_eval (c : PyObj) (e : Nat) (db : DB) (T : Nat) :
    (addComponentToEntity c e db).components T =
      if T = c.ty then some (sadd ((db.components c.ty).getD []) e)
      else db.components T := rfl

theorem addComponent_entities_eval (c : PyObj) (e : Nat) (db : DB) (x : Nat) :
    (addComponentToEntity c e db).entities x =
      if x = e then some (dset ((db.entities e).getD []) c.ty c)
      else db.entities x := rfl

theorem inv_addComponentToEntity (db : DB) (c : PyObj) (e : Nat)
    (hInv : Inv db) : Inv (addComponentToEntity c e db) := by
  obtain ⟨hne, hnd, hrnd, hdead, hir, hri⟩ := hInv
  constructor
  · intro T s hs
    rw [addComponent_components_eval] at hs
    by_cases hT : T = c.ty
    · rw [if_pos hT] at hs
      cases hs
      exact sadd_ne_nil _ _
    · rw [if_neg hT] at hs
      exact hne T s hs
  · intro T s hs
    rw [addComponent_components_eval] at hs
    by_cases hT : T = c.ty
    · rw [if_pos hT] at hs
      cases hs
      rcases h0 : db.components c.ty with _ | s0
      · exact nodup_sadd _ _ List.nodup_nil
      · exact nodup_sadd _ _ (hnd _ _ h0)
    · rw [if_neg hT] at hs
      exact hnd T s hs
  · intro x r hr
    rw [addComponent_entities_eval] at hr
    by_cases hx : x = e
    · rw [if_pos hx] at hr
      cases hr
      rcases h0 : db.entities e with _ | r0
      · exact nodup_keys_dset _ _ _ (by simp)
      · exact nodup_keys_dset _ _ _ (hrnd _ _ h0)
    · rw [if_neg hx] at hr
      exact hrnd x r hr
  · exact hdead
  · intro T x s hs hxs
    rw [addComponent_components_eval] at hs
    by_cases hT : T = c.ty
    · rw [if_pos hT] at hs
      cases hs
      rcases (mem_sadd _ _ _).1 hxs with hx | hx
      · rcases h0 : db.components c.ty with _ | s0
        · rw [h0] at hx
          exact absurd hx (List.not_mem_nil x)
        · rw [h0] at hx
          obtain ⟨r, hr, hdg⟩ := hir c.ty x s0 h0 hx
          by_cases hx2 : x = e
          · refine ⟨dset ((db.entities e).getD []) c.ty c, ?_, ?_⟩
            · rw [addComponent_entities_eval, if_pos hx2]
            · rw [hT, dget_dset_self]
              rfl
          · refine ⟨r, ?_, ?_⟩
            · rw [addComponent_entities_eval, if_neg hx2]
              exact hr
            · rw [hT]
              exact hdg
      · subst hx
        refine ⟨dset ((db.entities x).getD []) c.ty c, ?_, ?_⟩
        · rw [addComponent_entities_eval, if_pos rfl]
        · rw [hT, dget_dset_self]
          rfl
    · rw [if_neg hT] at hs
      obtain ⟨r, hr, hdg⟩ := hir T x s hs hxs
      by_cases hx2 : x = e
      · subst hx2
        refine ⟨dset ((db.entities x).getD []) c.ty c, ?_, ?_⟩
        · rw [addComponent_entities_eval, if_pos rfl]
        · have hgd : (db.entities x).getD [] = r := by
            rw [hr]
            rfl
          rw [hgd, dget_dset_ne _ _ hT]
          exact hdg
      · refine ⟨r, ?_, hdg⟩
        rw [addComponent_entities_eval, if_neg hx2]
        exact hr
  · intro x r T hr hdg
    rw [addComponent_entities_eval] at hr
    by_cases hx : x = e
    · rw [if_pos hx] at hr
      cases hr
      by_cases hT : T = c.ty
      · refine ⟨sadd ((db.components c.ty).getD []) e, ?_, ?_⟩
        · rw [addComponent_components_eval, if_pos hT]
        · rw [hx]
          exact (mem_sadd _ _ _).2 (Or.inr rfl)
      · rw [dget_dset_ne _ _ hT] at hdg
        rcases h0 : db.entities e with _ | r0
        · rw [h0] at hdg
          exact absurd hdg (by simp [dget])
        · rw [h0] at hdg
          obtain ⟨s, hsc, hxs⟩ := hri e r0 T h0 hdg
          refine ⟨s, ?_, ?_⟩
          · rw [addComponent_components_eval, if_neg hT]
            exact hsc
          · rw [hx]
            exact hxs
    · rw [if_neg hx] at hr
      obtain ⟨s, hsc, hxs⟩ := hri x r T hr hdg
      by_cases hT : T = c.ty
      · refine ⟨sadd ((db.components c.ty).getD []) e, ?_, ?_⟩
        · rw [addComponent_components_eval, if_pos hT]
        · have hgd : (db.components c.ty).getD [] = s := by
            rw [← hT, hsc]
            rfl
          rw [hgd]
          exact (mem_sadd _ _ _).2 (Or.inl hxs)
      · refine ⟨s, ?_, hxs⟩
        rw [addComponent_components_eval, if_neg hT]
        exact hsc

theorem isEmpty_false_of_ne_nil {α : Type} (l : List α) (h : l ≠ []) :
    l.isEmpty = false := by
  cases l with
  | nil => exact absurd rfl h
  | cons a t => rfl

theorem isEmpty_eq_true_iff {α : Type} (l : List α) :
    l.isEmpty = true ↔ l = [] := by
  cases l with
  | nil => simp
  | cons a t => simp

theorem removeComponent_no_index (db : DB) (T e : Nat)
    (hcT : db.components T = none) :
    removeComponentFromEntity T e db = (.error .keyError, db) := by
  simp [removeComponentFromEntity, hcT]

theorem removeComponent_no_row (db : DB) (T e : Nat) (s : List Nat)
    (hInv : Inv db) (hcT : db.components T = some s)
    (hre : db.entities e = none) :
    removeComponentFromEntity T e db = (.error .keyError, db) := by
  have hes : e ∉ s := by
    intro he
    obtain ⟨r, hr, _⟩ := hInv.idxToRow T e s hcT he
    rw [hre] at hr
    cases hr
  have hds : sdiscard s e = s := sdiscard_eq_self s e hes
  have hsf : (sdiscard s e).isEmpty = false := by
    rw [hds]
    exact isEmpty_false_of_ne_nil s (hInv.idxNonempty T s hcT)
  have hfu : fupdate db.components T (some (sdiscard s e)) = db.components := by
    rw [hds]
    exact fupdate_eq_self _ _ _ hcT
  simp only [removeComponentFromEntity, hcT, hsf, Bool.false_eq_true, if_false, hfu]
  simp [hre]

theorem removeComponent_no_entry (db : DB) (T e : Nat) (s : List Nat)
    (r : List (Nat × PyObj)) (hInv : Inv db) (hcT : db.components T = some s)
    (hre : db.entities e = some r) (hdg : dget r T = none) :
    removeComponentFromEntity T e db = (.error .keyError, db) := by
  have hes : e ∉ s := by
    intro he
    obtain ⟨r2, hr2, hdg2⟩ := hInv.idxToRow T e s hcT he
    rw [hre] at hr2
    cases hr2
    rw [hdg] at hdg2
    cases hdg2
  have hds : sdiscard s e = s := sdiscard_eq_self s e hes
  have hsf : (sdiscard s e).isEmpty = false := by
    rw [hds]
    exact isEmpty_false_of_ne_nil s (hInv.idxNonempty T s hcT)
  have hfu : fupdate db.components T (some (sdiscard s e)) = db.components := by
    rw [hds]
    exact fupdate_eq_self _ _ _ hcT
  simp only [removeComponentFromEntity, hcT, hsf, Bool.false_eq_true, if_false, hfu]
  simp [hre, hdg]

theorem removeComponent_success_eval (db : DB) (T e : Nat) (s : List Nat)
    (r : List (Nat × PyObj)) (c : PyObj) (hcT : db.components T = some s)
    (hre : db.entities e = some r) (hdg : dget r T = some c) :
    removeComponentFromEntity T e db =
      (.ok (),
        { nextEntityId := db.nextEntityId
          entities := fupdate db.entities e
            (if (ddel r T).isEmpty then none else some (ddel r T))
          components := fupdate db.components T
            (if (sdiscard s e).isEmpty then none else some (sdiscard s e))
          deadEntities := db.deadEntities }) := by
  by_cases h1 : (sdiscard s e).isEmpty = true
  · by_cases h2 : (ddel r T).isEmpty = true
    · simp [removeComponentFromEntity, hcT, h1, hre, hdg, h2]
    · simp [removeComponentFromEntity, hcT, h1, hre, hdg,
        Bool.not_eq_true _ ▸ h2]
  · by_cases h2 : (ddel r T).isEmpty = true
    · simp [removeComponentFromEntity, hcT, h1, hre, hdg, h2]
    · simp [removeComponentFromEntity, hcT, h1, hre, hdg, h2]

theorem ne_nil_of_isEmpty_false {α : Type} (l : List α)
    (h : l.isEmpty = false) : l ≠ [] := by
  intro hnil
  rw [hnil] at h
  cases h

theorem inv_removeComponentFromEntity (db : DB) (T e : Nat)
    (hInv : Inv db) : Inv (removeComponentFromEntity T e db).2 := by
  rcases hcT : db.components T with _ | s
  · rw [removeComponent_no_index db T e hcT]
    exact hInv
  rcases hre : db.entities e with _ | r
  · rw [removeComponent_no_row db T e s hInv hcT hre]
    exact hInv
  rcases hdg : dget r T with _ | c
  · rw [removeComponent_no_entry db T e s r hInv hcT hre hdg]
    exact hInv
  rw [removeComponent_success_eval db T e s r c hcT hre hdg]
  obtain ⟨hne, hnd, hrnd, hdead, hir, hri⟩ := hInv
  constructor
  · intro T2 s2 hs2
    simp only at hs2
    by_cases hT2 : T2 = T
    · rw [hT2, fupdate_self] at hs2
      by_cases h1 : (sdiscard s e).isEmpty = true
      · rw [if_pos h1] at hs2
        cases hs2
      · rw [if_neg h1] at hs2
        cases hs2
        exact ne_nil_of_isEmpty_false _ (Bool.eq_false_iff.2 h1)
    · rw [fupdate_ne _ _ hT2] at hs2
      exact hne T2 s2 hs2
  · intro T2 s2 hs2
    simp only at hs2
    by_cases hT2 : T2 = T
    · rw [hT2, fupdate_self] at hs2
      by_cases h1 : (sdiscard s e).isEmpty = true
      · rw [if_pos h1] at hs2
        cases hs2
      · rw [if_neg h1] at hs2
        cases hs2
        exact nodup_sdiscard s e (hnd T s hcT)
    · rw [fupdate_ne _ _ hT2] at hs2
      exact hnd T2 s2 hs2
  · intro x rx hrx
    simp only at hrx
    by_cases hx : x = e
    · rw [hx, fupdate_self] at hrx
      by_cases h2 : (ddel r T).isEmpty = true
      · rw [if_pos h2] at hrx
        cases hrx
      · rw [if_neg h2] at hrx
        cases hrx
        exact nodup_keys_ddel r T (hrnd e r hre)
    · rw [fupdate_ne _ _ hx] at hrx
      exact hrnd x rx hrx
  · exact hdead
  · intro T2 x s2 hs2 hx2
    simp only at hs2 ⊢
    by_cases hT2 : T2 = T
    · subst hT2
      rw [fupdate_self] at hs2
      by_cases h1 : (sdiscard s e).isEmpty = true
      · rw [if_pos h1] at hs2
        cases hs2
      · rw [if_neg h1] at hs2
        cases hs2
        obtain ⟨hxs, hxe⟩ := (mem_sdiscard s e x).1 hx2
        obtain ⟨rx, hrx, hdgx⟩ := hir T2 x s hcT hxs
        refine ⟨rx, ?_, hdgx⟩
        rw [fupdate_ne _ _ hxe]
        exact hrx
    · rw [fupdate_ne _ _ hT2] at hs2
      obtain ⟨rx, hrx, hdgx⟩ := hir T2 x s2 hs2 hx2
      by_cases hx : x = e
      · subst hx
        rw [hre] at hrx
        cases hrx
        have hdd : (dget (ddel r T) T2).isSome = true := by
          rw [dget_ddel_ne r hT2]
          exact hdgx
        have hdde : (ddel r T).isEmpty = false := by
          apply isEmpty_false_of_ne_nil
          intro hnil
          rw [hnil] at hdd
          simp [dget] at hdd
        refine ⟨ddel r T, ?_, hdd⟩
        rw [fupdate_self, hdde]
        rfl
      · refine ⟨rx, ?_, hdgx⟩
        rw [fupdate_ne _ _ hx]
        exact hrx
  · intro x rx T2 hrx hdgx
    simp only at hrx ⊢
    by_cases hx : x = e
    · subst hx
      rw [fupdate_self] at hrx
      by_cases h2 : (ddel r T).isEmpty = true
      · rw [if_pos h2] at hrx
        cases hrx
      · rw [if_neg h2] at hrx
        cases hrx
        by_cases hT2 : T2 = T
        · rw [hT2, dget_ddel_self r T (hrnd x r hre)] at hdgx
          cases hdgx
        · rw [dget_ddel_ne r hT2] at hdgx
          obtain ⟨s2, hs2, he2⟩ := hri x r T2 hre hdgx
          refine ⟨s2, ?_, he2⟩
          rw [fupdate_ne _ _ hT2]
          exact hs2
    · rw [fupdate_ne _ _ hx] at hrx
      obtain ⟨s2, hs2, hx2⟩ := hri x rx T2 hrx hdgx
      by_cases hT2 : T2 = T
      · subst hT2
        rw [hcT] at hs2
        cases hs2
        have hmem : x ∈ sdiscard s e := (mem_sdiscard s e x).2 ⟨hx2, hx⟩
        have hsde : (sdiscard s e).isEmpty = false := by
          apply isEmpty_false_of_ne_nil
          intro hnil
          rw [hnil] at hmem
          exact List.not_mem_nil x hmem
        refine ⟨sdiscard s e, ?_, hmem⟩
        rw [fupdate_self, hsde]
        rfl
      · refine ⟨s2, ?_, hx2⟩
        rw [fupdate_ne _ _ hT2]
        exact hs2

theorem removeComponent_error_unchanged (db : DB) (T e : Nat)
    (hInv : Inv db) (err : PyErr)
    (h : (removeComponentFromEntity T e db).1 = .error err) :
    (removeComponentFromEntity T e db).2 = db := by
  rcases hcT : db.components T with _ | s
  · rw [removeComponent_no_index db T e hcT]
  · rcases hre : db.entities e with _ | r
    · rw [removeComponent_no_row db T e s hInv hcT hre]
    · rcases hdg : dget r T with _ | c
      · rw [removeComponent_no_entry db T e s r hInv hcT hre hdg]
      · rw [removeComponent_success_eval db T e s r c hcT hre hdg] at h
        simp at h

theorem discardFromIndexes_spec (e : Nat) (ts : List Nat) (db : DB) :
    ts.Nodup → (∀ T ∈ ts, (db.components T).isSome = true) →
    (discardFromIndexes e ts db).1 = .ok () ∧
    (discardFromIndexes e ts db).2.entities = db.entities ∧
    (discardFromIndexes e ts db).2.nextEntityId = db.nextEntityId ∧
    (discardFromIndexes e ts db).2.deadEntities = db.deadEntities ∧
    (∀ T, T ∉ ts → (discardFromIndexes e ts db).2.components T = db.components T) ∧
    (∀ T, T ∈ ts → (discardFromIndexes e ts db).2.components T =
      (db.components T).bind (fun s =>
        if (sdiscard s e).isEmpty then none else some (sdiscard s e))) := by
  induction ts generalizing db with
  | nil =>
    intro _ _
    simp [discardFromIndexes]
  | cons T0 ts ih =>
    intro hnd hall
    obtain ⟨hT0, hndt⟩ := List.nodup_cons.1 hnd
    have h0 := hall T0 (List.mem_cons_self T0 ts)
    rcases hh : db.components T0 with _ | s0
    · rw [hh] at h0
      cases h0
    by_cases hemp : (sdiscard s0 e).isEmpty = true
    · have hstep : discardFromIndexes e (T0 :: ts) db =
          discardFromIndexes e ts
            { db with components := fupdate db.components T0 none } := by
        simp [discardFromIndexes, hh, hemp]
      have hall1 : ∀ T ∈ ts,
          (({ db with components := fupdate db.components T0 none } : DB).components T).isSome
            = true := by
        intro T hT
        have hTne : T ≠ T0 := fun h => hT0 (h ▸ hT)
        show (fupdate db.components T0 none T).isSome = true
        rw [fupdate_ne _ _ hTne]
        exact hall T (List.mem_cons_of_mem T0 hT)
      obtain ⟨i1, i2, i3, i4, i5, i6⟩ := ih _ hndt hall1
      rw [hstep]
      refine ⟨i1, i2, i3, i4, ?_, ?_⟩
      · intro T hT
        have hTne : T ≠ T0 := fun h => hT (h ▸ List.mem_cons_self T0 ts)
        have hTts : T ∉ ts := fun h => hT (List.mem_cons_of_mem T0 h)
        rw [i5 T hTts]
        show fupdate db.components T0 none T = db.components T
        exact fupdate_ne _ _ hTne
      · intro T hT
        rcases List.mem_cons.1 hT with hT2 | hT2
        · subst hT2
          rw [i5 T hT0]
          show fupdate db.components T none T = _
          rw [fupdate_self, hh]
          simp only [Option.some_bind]
          rw [if_pos hemp]
        · have hTne : T ≠ T0 := fun h => hT0 (h ▸ hT2)
          rw [i6 T hT2]
          show (fupdate db.components T0 none T).bind _ = _
          rw [fupdate_ne _ _ hTne]
    · have hstep : discardFromIndexes e (T0 :: ts) db =
          discardFromIndexes e ts
            { db with components := fupdate db.components T0 (some (sdiscard s0 e)) } := by
        simp [discardFromIndexes, hh, hemp]
      have hall1 : ∀ T ∈ ts,
          (({ db with components := fupdate db.components T0 (some (sdiscard s0 e)) } : DB).components T).isSome
            = true := by
        intro T hT
        have hTne : T ≠ T0 := fun h => hT0 (h ▸ hT)
        show (fupdate db.components T0 (some (sdiscard s0 e)) T).isSome = true
        rw [fupdate_ne _ _ hTne]
        exact hall T (List.mem_cons_of_mem T0 hT)
      obtain ⟨i1, i2, i3, i4, i5, i6⟩ := ih _ hndt hall1
      rw [hstep]
      refine ⟨i1, i2, i3, i4, ?_, ?_⟩
      · intro T hT
        have hTne : T ≠ T0 := fun h => hT (h ▸ List.mem_cons_self T0 ts)
        have hTts : T ∉ ts := fun h => hT (List.mem_cons_of_mem T0 h)
        rw [i5 T hTts]
        show fupdate db.components T0 (some (sdiscard s0 e)) T = db.components T
        exact fupdate_ne _ _ hTne
      · intro T hT
        rcases List.mem_cons.1 hT with hT2 | hT2
        · subst hT2
          rw [i5 T hT0]
          show fupdate db.components T (some (sdiscard s0 e)) T = _
          rw [fupdate_self, hh]
          simp only [Option.some_bind]
          rw [if_neg hemp]
        · have hTne : T ≠ T0 := fun h => hT0 (h ▸ hT2)
          rw [i6 T hT2]
          show (fupdate db.components T0 (some (sdiscard s0 e)) T).bind _ = _
          rw [fupdate_ne _ _ hTne]

theorem removeEntity_unknown (e : Nat) (db : DB)
    (hre : db.entities e = none) :
    removeEntity e true db = (.error .keyError, db) := by
  simp [removeEntity, hre]

theorem removeEntity_deferred_eval (e : Nat) (db : DB) :
    removeEntity e false db =
      (.ok (), { db with deadEntities := sadd db.deadEntities e }) := rfl

theorem removeEntity_imm_spec (e : Nat) (db : DB) (r : List (Nat × PyObj))
    (hInv : Inv db) (hre : db.entities e = some r) :
    (removeEntity e true db).1 = .ok () ∧
    (removeEntity e true db).2.entities = fupdate db.entities e none ∧
    (removeEntity e true db).2.nextEntityId = db.nextEntityId ∧
    (removeEntity e true db).2.deadEntities = db.deadEntities ∧
    (∀ T, T ∉ r.map Prod.fst →
      (removeEntity e true db).2.components T = db.components T) ∧
    (∀ T, T ∈ r.map Prod.fst →
      (removeEntity e true db).2.components T =
        (db.components T).bind (fun s =>
          if (sdiscard s e).isEmpty then none else some (sdiscard s e))) := by
  have hnd := hInv.rowNodup e r hre
  have hall : ∀ T ∈ r.map Prod.fst, (db.components T).isSome = true := by
    intro T hT
    obtain ⟨s, hs, _⟩ := hInv.rowToIdx e r T hre ((dget_isSome_iff_mem_keys r T).2 hT)
    rw [hs]
    rfl
  obtain ⟨h1, h2, h3, h4, h5, h6⟩ := discardFromIndexes_spec e (r.map Prod.fst) db hnd hall
  rcases hd : discardFromIndexes e (r.map Prod.fst) db with ⟨o, db1⟩
  rw [hd] at h1 h2 h3 h4 h5 h6
  simp only at h1 h2 h3 h4 h5 h6
  subst h1
  have hrun : removeEntity e true db =
      (.ok (), { db1 with entities := fupdate db1.entities e none }) := by
    simp [removeEntity, hre, hd]
  rw [hrun]
  refine ⟨rfl, ?_, h3, h4, h5, h6⟩
  show fupdate db1.entities e none = fupdate db.entities e none
  rw [h2]

theorem inv_removeEntity_deferred (db : DB) (e : Nat) (hInv : Inv db) :
    Inv { db with deadEntities := sadd db.deadEntities e } := by
  obtain ⟨hne, hnd, hrnd, hdead, hir, hri⟩ := hInv
  exact ⟨hne, hnd, hrnd, nodup_sadd _ _ hdead, hir, hri⟩

theorem inv_removeEntity (db : DB) (e : Nat) (imm : Bool) (hInv : Inv db) :
    Inv (removeEntity e imm db).2 := by
  cases imm with
  | false =>
    rw [removeEntity_deferred_eval]
    exact inv_removeEntity_deferred db e hInv
  | true =>
    rcases hre : db.entities e with _ | r
    · rw [removeEntity_unknown e db hre]
      exact hInv
    obtain ⟨h1, h2, h3, h4, h5, h6⟩ := removeEntity_imm_spec e db r hInv hre
    obtain ⟨hne, hnd, hrnd, hdead, hir, hri⟩ := hInv
    constructor
    · intro T s hs
      by_cases hT : T ∈ r.map Prod.fst
      · rw [h6 T hT] at hs
        rcases h0 : db.components T with _ | s0
        · rw [h0] at hs
          cases hs
        · rw [h0] at hs
          simp only [Option.some_bind] at hs
          by_cases hemp : (sdiscard s0 e).isEmpty = true
          · rw [if_pos hemp] at hs
            cases hs
          · rw [if_neg hemp] at hs
            cases hs
            exact ne_nil_of_isEmpty_false _ (Bool.eq_false_iff.2 hemp)
      · rw [h5 T hT] at hs
        exact hne T s hs
    · intro T s hs
      by_cases hT : T ∈ r.map Prod.fst
      · rw [h6 T hT] at hs
        rcases h0 : db.components T with _ | s0
        · rw [h0] at hs
          cases hs
        · rw [h0] at hs
          simp only [Option.some_bind] at hs
          by_cases hemp : (sdiscard s0 e).isEmpty = true
          · rw [if_pos hemp] at hs
            cases hs
          · rw [if_neg hemp] at hs
            cases hs
            exact nodup_sdiscard s0 e (hnd T s0 h0)
      · rw [h5 T hT] at hs
        exact hnd T s hs
    · intro x rx hrx
      rw [h2] at hrx
      by_cases hx : x = e
      · rw [hx, fupdate_self] at hrx
        cases hrx
      · rw [fupdate_ne _ _ hx] at hrx
        exact hrnd x rx hrx
    · rw [h4]
      exact hdead
    · intro T x s hs hxs
      by_cases hT : T ∈ r.map Prod.fst
      · rw [h6 T hT] at hs
        rcases h0 : db.components T with _ | s0
        · rw [h0] at hs
          cases hs
        · rw [h0] at hs
          simp only [Option.some_bind] at hs
          by_cases hemp : (sdiscard s0 e).isEmpty = true
          · rw [if_pos hemp] at hs
            cases hs
          · rw [if_neg hemp] at hs
            cases hs
            obtain ⟨hxs0, hxe⟩ := (mem_sdiscard s0 e x).1 hxs
            obtain ⟨rx, hrx, hdgx⟩ := hir T x s0 h0 hxs0
            refine ⟨rx, ?_, hdgx⟩
            rw [h2, fupdate_ne _ _ hxe]
            exact hrx
      · rw [h5 T hT] at hs
        obtain ⟨rx, hrx, hdgx⟩ := hir T x s hs hxs
        by_cases hx : x = e
        · subst hx
          rw [hre] at hrx
          cases hrx
          exact absurd ((dget_isSome_iff_mem_keys r T).1 hdgx) hT
        · refine ⟨rx, ?_, hdgx⟩
          rw [h2, fupdate_ne _ _ hx]
          exact hrx
    · intro x rx T hrx hdgx
      rw [h2] at hrx
      by_cases hx : x = e
      · rw [hx, fupdate_self] at hrx
        cases hrx
      · rw [fupdate_ne _ _ hx] at hrx
        obtain ⟨s0, hs0, hx0⟩ := hri x rx T hrx hdgx
        by_cases hT : T ∈ r.map Prod.fst
        · have hmem : x ∈ sdiscard s0 e := (mem_sdiscard s0 e x).2 ⟨hx0, hx⟩
          have hsde : (sdiscard s0 e).isEmpty = false := by
            apply isEmpty_false_of_ne_nil
            intro hnil
            rw [hnil] at hmem
            exact List.not_mem_nil x hmem
          refine ⟨sdiscard s0 e, ?_, hmem⟩
          rw [h6 T hT, hs0]
          simp only [Option.some_bind]
          rw [if_neg (by rw [hsde]; exact Bool.false_ne_true)]
        · refine ⟨s0, ?_, hx0⟩
          rw [h5 T hT]
          exact hs0

theorem reconcileDead_cons_ok (d : Nat) (ds : List Nat) (db : DB)
    (h : (removeEntity d true db).1 = .ok ()) :
    reconcileDead (d :: ds) db = reconcileDead ds (removeEntity d true db).2 := by
  rcases hE : removeEntity d true db with ⟨o, db1⟩
  rw [hE] at h
  cases o with
  | error err => simp at h
  | ok u =>
    cases u
    simp [reconcileDead, hE]

theorem reconcileDead_cons_error (d : Nat) (ds : List Nat) (db : DB) (err : PyErr)
    (h : (removeEntity d true db).1 = .error err) :
    reconcileDead (d :: ds) db = (.error err, (removeEntity d true db).2) := by
  rcases hE : removeEntity d true db with ⟨o, db1⟩
  rw [hE] at h
  cases o with
  | error e2 =>
    simp at h
    subst h
    simp [reconcileDead, hE]
  | ok u => simp at h

theorem reconcileDead_spec (ds : List Nat) (db : DB) :
    Inv db → ds.Nodup → (∀ d ∈ ds, (db.entities d).isSome = true) →
    (reconcileDead ds db).1 = .ok () ∧
    Inv (reconcileDead ds db).2 ∧
    (∀ d ∈ ds, (reconcileDead ds db).2.entities d = none) ∧
    (∀ x, x ∉ ds → (reconcileDead ds db).2.entities x = db.entities x) ∧
    (reconcileDead ds db).2.nextEntityId = db.nextEntityId ∧
    (reconcileDead ds db).2.deadEntities = db.deadEntities := by
  induction ds generalizing db with
  | nil =>
    intro hInv _ _
    exact ⟨rfl, hInv, fun d hd => absurd hd (List.not_mem_nil d),
      fun x _ => rfl, rfl, rfl⟩
  | cons d ds ih =>
    intro hInv hnd hall
    obtain ⟨hd0, hndt⟩ := List.nodup_cons.1 hnd
    have h0 := hall d (List.mem_cons_self d ds)
    rcases hre : db.entities d with _ | r
    · rw [hre] at h0
      cases h0
    obtain ⟨r1, r2, r3, r4, r5, r6⟩ := removeEntity_imm_spec d db r hInv hre
    have hInv1 : Inv (removeEntity d true db).2 := inv_removeEntity db d true hInv
    have hstep := reconcileDead_cons_ok d ds db r1
    have hall1 : ∀ x ∈ ds, ((removeEntity d true db).2.entities x).isSome = true := by
      intro x hx
      have hxd : x ≠ d := fun h => hd0 (h ▸ hx)
      rw [r2, fupdate_ne _ _ hxd]
      exact hall x (List.mem_cons_of_mem d hx)
    obtain ⟨i1, i2, i3, i4, i5, i6⟩ := ih _ hInv1 hndt hall1
    rw [hstep]
    refine ⟨i1, i2, ?_, ?_, ?_, ?_⟩
    · intro d2 hd2
      rcases List.mem_cons.1 hd2 with h | h
      · subst h
        rw [i4 d2 hd0, r2, fupdate_self]
      · exact i3 d2 h
    · intro x hx
      have hxd : x ≠ d := fun h => hx (h ▸ List.mem_cons_self d ds)
      have hxds : x ∉ ds := fun h => hx (List.mem_cons_of_mem d h)
      rw [i4 x hxds, r2, fupdate_ne _ _ hxd]
    · rw [i5, r3]
    · rw [i6, r4]

theorem reconcileDead_fail (ds : List Nat) (db : DB) :
    Inv db → ds.Nodup → (∃ d ∈ ds, db.entities d = none) →
    (reconcileDead ds db).1 = .error .keyError := by
  induction ds generalizing db with
  | nil =>
    rintro _ _ ⟨d, hd, _⟩
    exact absurd hd (List.not_mem_nil d)
  | cons d0 ds ih =>
    intro hInv hnd hbad
    by_cases h0 : db.entities d0 = none
    · have hrm : (removeEntity d0 true db).1 = .error .keyError := by
        rw [removeEntity_unknown d0 db h0]
      rw [reconcileDead_cons_error d0 ds db .keyError hrm]
    · rcases hre : db.entities d0 with _ | r
      · exact absurd hre h0
      obtain ⟨r1, r2, _, _, _, _⟩ := removeEntity_imm_spec d0 db r hInv hre
      rw [reconcileDead_cons_ok d0 ds db r1]
      obtain ⟨hd0, hndt⟩ := List.nodup_cons.1 hnd
      apply ih _ (inv_removeEntity db d0 true hInv) hndt
      obtain ⟨d2, hd2, hnone⟩ := hbad
      rcases List.mem_cons.1 hd2 with h | h
      · subst h
        rw [hre] at hnone
        cases hnone
      · refine ⟨d2, h, ?_⟩
        have hne2 : d2 ≠ d0 := by
          intro heq
          rw [heq, hre] at hnone
          cases hnone
        rw [r2, fupdate_ne _ _ hne2]
        exact hnone

theorem dispatch_inv (args : List Nat) (ss : List PySystem) (db : DB) :
    (∀ s ∈ ss, ∀ a d, Inv d → Inv (s.proc a d).2) → Inv db →
    Inv (dispatch args ss db).2.1 := by
  induction ss generalizing db with
  | nil =>
    intro _ h
    exact h
  | cons s ss ih =>
    intro hok hInv
    have hs := hok s (List.mem_cons_self s ss) args db hInv
    rcases hp : s.proc args db with ⟨o, db1⟩
    rw [hp] at hs
    cases o with
    | error err =>
      have hstep : dispatch args (s :: ss) db = (.error err, db1, [(s.tyId, args)]) := by
        simp [dispatch, hp]
      rw [hstep]
      exact hs
    | ok u =>
      cases u
      have hstep : dispatch args (s :: ss) db =
          ((dispatch args ss db1).1, (dispatch args ss db1).2.1,
            (s.tyId, args) :: (dispatch args ss db1).2.2) := by
        simp [dispatch, hp]
      rw [hstep]
      exact ih db1 (fun s2 h2 => hok s2 (List.mem_cons_of_mem s h2)) hs

theorem dispatch_log_all_ok (args : List Nat) (ss : List PySystem) (db : DB) :
    (∀ s ∈ ss, ∀ a d, (s.proc a d).1 = .ok ()) →
    (dispatch args ss db).2.2 = ss.map (fun s => (s.tyId, args)) := by
  induction ss generalizing db with
  | nil =>
    intro _
    rfl
  | cons s ss ih =>
    intro hok
    have h1 := hok s (List.mem_cons_self s ss) args db
    rcases hp : s.proc args db with ⟨o, db1⟩
    rw [hp] at h1
    cases o with
    | error err => simp at h1
    | ok u =>
      cases u
      have hstep : dispatch args (s :: ss) db =
          ((dispatch args ss db1).1, (dispatch args ss db1).2.1,
            (s.tyId, args) :: (dispatch args ss db1).2.2) := by
        simp [dispatch, hp]
      rw [hstep]
      show (s.tyId, args) :: (dispatch args ss db1).2.2 =
        (s.tyId, args) :: ss.map (fun s => (s.tyId, args))
      rw [ih db1 (fun s2 h2 => hok s2 (List.mem_cons_of_mem s h2))]

theorem tick_no_dead (m : Manager) (args : List Nat)
    (h : m.db.deadEntities.isEmpty = true) :
    tick m args =
      ((dispatch args m.systems m.db).1,
        { m with db := (dispatch args m.systems m.db).2.1 },
        (dispatch args m.systems m.db).2.2) := by
  simp [tick, h]

theorem tick_reconcile_ok (m : Manager) (args : List Nat)
    (h2 : m.db.deadEntities.isEmpty = false)
    (h1 : (reconcileDead m.db.deadEntities m.db).1 = .ok ()) :
    tick m args =
      ((dispatch args m.systems
          { (reconcileDead m.db.deadEntities m.db).2 with deadEntities := [] }).1,
        { m with db := (dispatch args m.systems
          { (reconcileDead m.db.deadEntities m.db).2 with deadEntities := [] }).2.1 },
        (dispatch args m.systems
          { (reconcileDead m.db.deadEntities m.db).2 with deadEntities := [] }).2.2) := by
  rcases hE : reconcileDead m.db.deadEntities m.db with ⟨o, db1⟩
  rw [hE] at h1
  cases o with
  | error err => simp at h1
  | ok u =>
    cases u
    simp [tick, h2, hE]

theorem tick_reconcile_error (m : Manager) (args : List Nat) (err : PyErr)
    (h2 : m.db.deadEntities.isEmpty = false)
    (h1 : (reconcileDead m.db.deadEntities m.db).1 = .error err) :
    tick m args =
      (.error err, { m with db := (reconcileDead m.db.deadEntities m.db).2 }, []) := by
  rcases hE : reconcileDead m.db.deadEntities m.db with ⟨o, db1⟩
  rw [hE] at h1
  cases o with
  | error e2 =>
    simp at h1
    subst h1
    simp [tick, h2, hE]
  | ok u => simp at h1

theorem queryOneLoop_ok (T : Nat) (db : DB) (l : List Nat) :
    (∀ x ∈ l, ∃ r, db.entities x = some r ∧ (dget r T).isSome = true) →
    ∃ out, queryOneLoop T db l = .ok out ∧
      out.map Prod.fst = l ∧
      (∀ x c, (x, c) ∈ out ↔ x ∈ l ∧ getComponentFromEntity T x db = .ok c) := by
  induction l with
  | nil =>
    intro _
    exact ⟨[], rfl, rfl, by simp⟩
  | cons x0 l ih =>
    intro h
    obtain ⟨r0, hr0, hdg0⟩ := h x0 (List.mem_cons_self x0 l)
    rcases hc0 : dget r0 T with _ | c0
    · rw [hc0] at hdg0
      cases hdg0
    obtain ⟨out, hout, hmap, hmem⟩ := ih (fun x hx => h x (List.mem_cons_of_mem x0 hx))
    refine ⟨(x0, c0) :: out, ?_, ?_, ?_⟩
    · simp [queryOneLoop, hr0, hc0, hout]
    · simp [hmap]
    · intro x c
      simp only [List.mem_cons]
      constructor
      · rintro (h1 | h1)
        · injection h1 with hx hc
          subst hx
          subst hc
          refine ⟨Or.inl rfl, ?_⟩
          simp [getComponentFromEntity, hr0, hc0]
        · obtain ⟨hxl, hgc⟩ := (hmem x c).1 h1
          exact ⟨Or.inr hxl, hgc⟩
      · rintro ⟨h1 | h1, hgc⟩
        · subst h1
          simp [getComponentFromEntity, hr0, hc0] at hgc
          subst hgc
          exact Or.inl rfl
        · exact Or.inr ((hmem x c).2 ⟨h1, hgc⟩)

theorem queryOneLoop_mem_fst (T : Nat) (db : DB) (l : List Nat)
    (out : List (Nat × PyObj)) (h : queryOneLoop T db l = .ok out) :
    ∀ x c, (x, c) ∈ out → x ∈ l := by
  induction l generalizing out with
  | nil =>
    simp only [queryOneLoop] at h
    cases h
    intro x c hmem
    exact absurd hmem (List.not_mem_nil (x, c))
  | cons x0 l ih =>
    rcases hr0 : db.entities x0 with _ | r0
    · simp [queryOneLoop, hr0] at h
    rcases hc0 : dget r0 T with _ | c0
    · simp [queryOneLoop, hr0, hc0] at h
    rcases hrec : queryOneLoop T db l with err | out2
    · simp [queryOneLoop, hr0, hc0, hrec] at h
    simp only [queryOneLoop, hr0, hc0, hrec] at h
    cases h
    intro x c hmem
    rcases List.mem_cons.1 hmem with h1 | h1
    · injection h1 with hx _
      exact List.mem_cons.2 (Or.inl hx)
    · exact List.mem_cons.2 (Or.inr (ih out2 hrec x c h1))

theorem getComponent_spec (T : Nat) (db : DB) (hInv : Inv db) :
    ∃ out, getComponent T db = .ok out ∧
      out.map Prod.fst = (db.components T).getD [] ∧
      (∀ x c, (x, c) ∈ out ↔
        x ∈ (db.components T).getD [] ∧ getComponentFromEntity T x db = .ok c) := by
  apply queryOneLoop_ok
  intro x hx
  rcases h0 : db.components T with _ | s
  · rw [h0] at hx
    exact absurd hx (List.not_mem_nil x)
  · rw [h0] at hx
    exact hInv.idxToRow T x s h0 hx

theorem collectRow_eq_some_spec (db : DB) (e : Nat) (tys : List Nat)
    (cs : List PyObj) :
    collectRow db e tys = some cs →
    cs.length = tys.length ∧
    ∀ i, (hi : i < tys.length) → (hc : i < cs.length) →
      getComponentFromEntity (tys.get ⟨i, hi⟩) e db = .ok (cs.get ⟨i, hc⟩) := by
  induction tys generalizing cs with
  | nil =>
    intro h
    simp only [collectRow] at h
    cases h
    exact ⟨rfl, fun i hi => absurd hi (by simp)⟩
  | cons T0 tys ih =>
    intro h
    rcases hre : db.entities e with _ | r
    · simp [collectRow, hre] at h
    rcases hdg : dget r T0 with _ | c0
    · simp [collectRow, hre, hdg] at h
    rcases hrec : collectRow db e tys with _ | cs2
    · simp [collectRow, hre, hdg, hrec] at h
    simp only [collectRow, hre, hdg, hrec, Option.map_some] at h
    cases h
    obtain ⟨ihl, ihg⟩ := ih cs2 hrec
    constructor
    · simp [ihl]
    · intro i hi hc
      cases i with
      | zero =>
        simp [getComponentFromEntity, hre, hdg]
      | succ j =>
        simp only [List.length_cons, Nat.succ_lt_succ_iff] at hi hc
        exact ihg j hi hc

theorem collectRow_isSome (db : DB) (e : Nat) (tys : List Nat) :
    (∀ T ∈ tys, ∃ c, getComponentFromEntity T e db = .ok c) →
    ∃ cs, collectRow db e tys = some cs := by
  induction tys with
  | nil =>
    intro _
    exact ⟨[], rfl⟩
  | cons T0 tys ih =>
    intro h
    obtain ⟨c0, hc0⟩ := h T0 (List.mem_cons_self T0 tys)
    rcases hre : db.entities e with _ | r
    · simp [getComponentFromEntity, hre] at hc0
    rcases hdg : dget r T0 with _ | c
    · simp [getComponentFromEntity, hre, hdg] at hc0
    obtain ⟨cs, hcs⟩ := ih (fun T hT => h T (List.mem_cons_of_mem T0 hT))
    exact ⟨c :: cs, by simp [collectRow, hre, hdg, hcs]⟩

theorem qmLoop_mem (db : DB) (tys : List Nat) (l : List Nat) :
    ∀ x cs, (x, cs) ∈ qmLoop db tys l →
      x ∈ l ∧ collectRow db x tys = some cs := by
  induction l with
  | nil =>
    intro x cs hmem
    simp [qmLoop] at hmem
  | cons e0 l ih =>
    intro x cs hmem
    rcases hc : collectRow db e0 tys with _ | cs0
    · simp only [qmLoop, hc] at hmem
      exact absurd hmem (List.not_mem_nil (x, cs))
    · simp only [qmLoop, hc] at hmem
      rcases List.mem_cons.1 hmem with h1 | h1
      · injection h1 with hx hcs
        subst hx
        subst hcs
        exact ⟨List.mem_cons_self x l, hc⟩
      · obtain ⟨hxl, hcr⟩ := ih x cs h1
        exact ⟨List.mem_cons_of_mem e0 hxl, hcr⟩

theorem qmLoop_map_fst (db : DB) (tys : List Nat) (l : List Nat) :
    (∀ x ∈ l, (collectRow db x tys).isSome = true) →
    (qmLoop db tys l).map Prod.fst = l := by
  induction l with
  | nil =>
    intro _
    rfl
  | cons e0 l ih =>
    intro h
    have h0 := h e0 (List.mem_cons_self e0 l)
    rcases hc : collectRow db e0 tys with _ | cs0
    · rw [hc] at h0
      cases h0
    simp only [qmLoop, hc, List.map_cons]
    rw [ih (fun x hx => h x (List.mem_cons_of_mem e0 hx))]

theorem lookupIndexes_all_some (db : DB) (tys : List Nat) :
    (∀ T ∈ tys, (db.components T).isSome = true) →
    lookupIndexes db tys =
      some (tys.map (fun T => (db.components T).getD [])) := by
  induction tys with
  | nil =>
    intro _
    rfl
  | cons T0 tys ih =>
    intro h
    have h0 := h T0 (List.mem_cons_self T0 tys)
    rcases hh : db.components T0 with _ | s0
    · rw [hh] at h0
      cases h0
    simp [lookupIndexes, hh, ih (fun T hT => h T (List.mem_cons_of_mem T0 hT))]

theorem lookupIndexes_none (db : DB) (tys : List Nat) (T : Nat)
    (hT : T ∈ tys) (h : db.components T = none) :
    lookupIndexes db tys = none := by
  induction tys with
  | nil => exact absurd hT (List.not_mem_nil T)
  | cons T0 tys ih =>
    rcases List.mem_cons.1 hT with h1 | h1
    · subst h1
      simp [lookupIndexes, h]
    · rcases hh : db.components T0 with _ | s0
      · simp [lookupIndexes, hh]
      · simp [lookupIndexes, hh, ih h1]

theorem mem_intersectAll_cons (s : List Nat) (rest : List (List Nat)) (x : Nat) :
    x ∈ intersectAll (s :: rest) ↔ x ∈ s ∧ ∀ t ∈ rest, x ∈ t := by
  simp [intersectAll, List.mem_filter, List.all_eq_true]

/-- A trivial concrete system whose `process` succeeds and leaves the
database unchanged, used to instantiate theorems. -/
def noopSystem (T : Nat) : PySystem :=
  { tyId := T, mgrRef := true, proc := fun _ db => (.ok (), db) }

theorem removeSystemScan_nil (T : Nat) : removeSystemScan T [] = ([], []) := rfl

theorem removeSystemScan_cons (T : Nat) (s : PySystem) (rest : List PySystem) :
    removeSystemScan T (s :: rest) =
      if s.tyId = T then
        match rest with
        | [] => ([], [{ s with mgrRef := false }])
        | y :: rest2 =>
            (y :: (removeSystemScan T rest2).1,
              { s with mgrRef := false } :: (removeSystemScan T rest2).2)
      else (s :: (removeSystemScan T rest).1, (removeSystemScan T rest).2) := by
  rw [removeSystemScan.eq_def]

theorem removeSystemScan_kept_sublist (T : Nat) :
    ∀ l : List PySystem, ((removeSystemScan T l).1).Sublist l
  | [] => List.nil_sublist []
  | s :: l => by
    rw [removeSystemScan_cons]
    by_cases hT : s.tyId = T
    · rw [if_pos hT]
      cases l with
      | nil => exact List.nil_sublist _
      | cons y rest2 =>
        have ih := removeSystemScan_kept_sublist T rest2
        exact (ih.cons₂ y).cons s
    · rw [if_neg hT]
      exact (removeSystemScan_kept_sublist T l).cons₂ s

theorem removeSystemScan_removed_spec (T : Nat) :
    ∀ l : List PySystem,
      ∀ s2 ∈ (removeSystemScan T l).2, s2.tyId = T ∧ s2.mgrRef = false
  | [] => by
    intro s2 hs2
    exact absurd hs2 (List.not_mem_nil s2)
  | s :: l => by
    intro s2 hs2
    rw [removeSystemScan_cons] at hs2
    by_cases hT : s.tyId = T
    · rw [if_pos hT] at hs2
      cases l with
      | nil =>
        replace hs2 : s2 ∈ [{ s with mgrRef := false }] := hs2
        rw [List.mem_singleton] at hs2
        subst hs2
        exact ⟨hT, rfl⟩
      | cons y rest2 =>
        replace hs2 : s2 ∈ { s with mgrRef := false } ::
          (removeSystemScan T rest2).2 := hs2
        rcases List.mem_cons.1 hs2 with h1 | h1
        · subst h1
          exact ⟨hT, rfl⟩
        · exact removeSystemScan_removed_spec T rest2 s2 h1
    · rw [if_neg hT] at hs2
      exact removeSystemScan_removed_spec T l s2 hs2

theorem removeSystemScan_no_match (T : Nat) :
    ∀ l : List PySystem,
      (∀ s ∈ l, s.tyId ≠ T) → removeSystemScan T l = (l, [])
  | [] => fun _ => rfl
  | s :: l => fun h => by
    have hT : ¬s.tyId = T := h s (List.mem_cons_self s l)
    rw [removeSystemScan_cons, if_neg hT,
      removeSystemScan_no_match T l (fun u hu => h u (List.mem_cons_of_mem s hu))]

theorem removeSystemScan_head (T : Nat) :
    ∀ (l1 : List PySystem) (s : PySystem) (l2 : List PySystem),
      (∀ u ∈ l1, u.tyId ≠ T) → s.tyId = T →
      ((removeSystemScan T (l1 ++ s :: l2)).2).head? =
        some { s with mgrRef := false }
  | [], s, l2 => fun _ hT => by
    rw [List.nil_append, removeSystemScan_cons, if_pos hT]
    cases l2 with
    | nil => rfl
    | cons y rest2 => rfl
  | u :: l1, s, l2 => fun h hT => by
    have hu : ¬u.tyId = T := h u (List.mem_cons_self u l1)
    rw [List.cons_append, removeSystemScan_cons, if_neg hu]
    exact removeSystemScan_head T l1 s l2
      (fun v hv => h v (List.mem_cons_of_mem u hv)) hT

/-- C1 counterexample: `has_component` does not return a boolean for an
unknown entity — it raises KeyError, both for an id that was never
created (first conjunct, and third: the result is not `False`) and for
an entity whose table row was deleted when its last component was
removed (second conjunct). -/
theorem has_component_raises_on_unknown_entity :
    hasComponent 1 7 DB.empty = .error .keyError ∧
    hasComponent 1 7
        (removeComponentFromEntity 7 1
          (addComponentToEntity ⟨7, 0⟩ 1 DB.empty)).2 = .error .keyError ∧
    hasComponent 1 7 DB.empty ≠ .ok false :=
  ⟨rfl, rfl, fun h => Except.noConfusion h⟩

/-- C1 (amended): `has_component(entity, type)` returns a boolean —
true exactly when the row holds the type — whenever the entity has a
table row, and raises KeyError when the entity has no row (ids never
created, and entities whose row was deleted when their last component
was removed). -/
theorem has_component_total_on_known_rows (db : DB) (e T : Nat) :
    (∀ r, db.entities e = some r →
      hasComponent e T db = .ok (dget r T).isSome) ∧
    (db.entities e = none → hasComponent e T db = .error .keyError) := by
  constructor
  · intro r hr
    simp [hasComponent, hr]
  · intro h
    simp [hasComponent, h]

theorem has_component_total_on_known_rows_witness :
    hasComponent 1 7 (addComponentToEntity ⟨7, 0⟩ 1 DB.empty) = .ok true ∧
    hasComponent 2 7 (addComponentToEntity ⟨7, 0⟩ 1 DB.empty)
      = .error .keyError := by
  have h := has_component_total_on_known_rows
    (addComponentToEntity ⟨7, 0⟩ 1 DB.empty) 1 7
  have h2 := has_component_total_on_known_rows
    (addComponentToEntity ⟨7, 0⟩ 1 DB.empty) 2 7
  exact ⟨h.1 [(7, ⟨7, 0⟩)] rfl, h2.2 rfl⟩

/-- C2 counterexample: with registered systems of runtime types
`[7, 8, 7]`, `remove_system(7)` removes TWO systems (both of type 7),
not exactly one, because the loop mutates the list while iterating;
the kept list is just the type-8 system. -/
theorem remove_system_removes_two :
    ((removeSystemScan 7 [noopSystem 7, noopSystem 8, noopSystem 7]).2).length = 2 ∧
    ((removeSystemScan 7 [noopSystem 7, noopSystem 8, noopSystem 7]).2).map
        PySystem.tyId = [7, 7] ∧
    ((removeSystemScan 7 [noopSystem 7, noopSystem 8, noopSystem 7]).1).map
        PySystem.tyId = [8] :=
  ⟨rfl, rfl, rfl⟩

/-- C2 (amended): `remove_system(T)` always removes the first registered
system of type `T` (head of the removed list, back-reference cleared);
every removed system has type `T` and a cleared back-reference; the
remaining systems keep their relative order (a sublist of the registry);
and the call is a no-op when no registered system has type `T`.  Because
the source mutates the list during iteration, the element immediately
after each removed match is skipped, so when several systems share type
`T` more than one of them can be removed in a single call. -/
theorem remove_system_behavior (T : Nat) (l : List PySystem) :
    ((removeSystemScan T l).1).Sublist l ∧
    (∀ s2 ∈ (removeSystemScan T l).2, s2.tyId = T ∧ s2.mgrRef = false) ∧
    ((∀ s ∈ l, s.tyId ≠ T) → removeSystemScan T l = (l, [])) ∧
    (∀ l1 s l2, l = l1 ++ s :: l2 → (∀ u ∈ l1, u.tyId ≠ T) → s.tyId = T →
      ((removeSystemScan T l).2).head? = some { s with mgrRef := false }) :=
  ⟨removeSystemScan_kept_sublist T l, removeSystemScan_removed_spec T l,
    removeSystemScan_no_match T l,
    fun l1 s l2 heq h1 h2 => heq ▸ removeSystemScan_head T l1 s l2 h1 h2⟩

theorem remove_system_behavior_witness :
    removeSystemScan 7 [noopSystem 8] = ([noopSystem 8], []) ∧
    ((removeSystemScan 7 [noopSystem 8, noopSystem 7]).2).head? =
      some { noopSystem 7 with mgrRef := false } := by
  constructor
  · exact (remove_system_behavior 7 [noopSystem 8]).2.2.1
      (by
        intro s hs
        rw [List.mem_singleton] at hs
        subst hs
        decide)
  · exact (remove_system_behavior 7 [noopSystem 8, noopSystem 7]).2.2.2
      [noopSystem 8] (noopSystem 7) [] rfl
      (by
        intro u hu
        rw [List.mem_singleton] at hu
        subst hu
        decide)
      rfl

/-- Hypothesis on registered systems: every system's `process` preserves
the database invariant (per the spec, systems act on the database only
through the Manager's own operations, each of which preserves it). -/
def SystemsOk (m : Manager) : Prop :=
  ∀ s ∈ m.systems, ∀ (a : List Nat) (d : DB), Inv d → Inv (s.proc a d).2

theorem inv_set_dead (db : DB) (ds : List Nat) (hds : ds.Nodup)
    (hInv : Inv db) : Inv { db with deadEntities := ds } := by
  obtain ⟨h1, h2, h3, _, h5, h6⟩ := hInv
  exact ⟨h1, h2, h3, hds, h5, h6⟩

theorem inv_foldl_addComponent (cs : List PyObj) (nid : Nat) :
    ∀ db : DB, Inv db →
      Inv (cs.foldl (fun d c => addComponentToEntity c nid d) db) := by
  induction cs with
  | nil =>
    intro db h
    exact h
  | cons c cs ih =>
    intro db h
    rw [List.foldl_cons]
    exact ih _ (inv_addComponentToEntity db c nid h)

theorem inv_newEntity (db : DB) (cs : List PyObj) (hInv : Inv db)
    (hfresh : db.entities (db.nextEntityId + 1) = none) :
    Inv (newEntity cs db).2 := by
  apply inv_foldl_addComponent
  obtain ⟨h1, h2, h3, h4, h5, h6⟩ := hInv
  constructor
  · exact h1
  · exact h2
  · intro x r hr
    replace hr : fupdate db.entities (db.nextEntityId + 1) (some []) x = some r := hr
    by_cases hx : x = db.nextEntityId + 1
    · rw [hx, fupdate_self] at hr
      cases hr
      simp
    · rw [fupdate_ne _ _ hx] at hr
      exact h3 x r hr
  · exact h4
  · intro T x s hs hxs
    obtain ⟨r, hr, hdg⟩ := h5 T x s hs hxs
    by_cases hx : x = db.nextEntityId + 1
    · subst hx
      rw [hfresh] at hr
      cases hr
    · refine ⟨r, ?_, hdg⟩
      show fupdate db.entities (db.nextEntityId + 1) (some []) x = some r
      rw [fupdate_ne _ _ hx]
      exact hr
  · intro x r T hr hdg
    replace hr : fupdate db.entities (db.nextEntityId + 1) (some []) x = some r := hr
    by_cases hx : x = db.nextEntityId + 1
    · rw [hx, fupdate_self] at hr
      cases hr
      simp [dget] at hdg
    · rw [fupdate_ne _ _ hx] at hr
      exact h6 x r T hr hdg

theorem inv_reconcileDead_any (ds : List Nat) (db : DB) (hInv : Inv db) :
    Inv (reconcileDead ds db).2 := by
  induction ds generalizing db with
  | nil => exact hInv
  | cons d ds ih =>
    rcases ho : (removeEntity d true db).1 with err | u
    · rw [reconcileDead_cons_error d ds db err ho]
      exact inv_removeEntity db d true hInv
    · cases u
      rw [reconcileDead_cons_ok d ds db ho]
      exact ih _ (inv_removeEntity db d true hInv)

theorem inv_tick (m : Manager) (args : List Nat) (hInv : Inv m.db)
    (hok : SystemsOk m) : Inv ((tick m args).2.1).db := by
  by_cases hdead : m.db.deadEntities.isEmpty = true
  · rw [tick_no_dead m args hdead]
    exact dispatch_inv args m.systems m.db hok hInv
  · have hdead2 : m.db.deadEntities.isEmpty = false := Bool.eq_false_iff.2 hdead
    rcases ho : (reconcileDead m.db.deadEntities m.db).1 with err | u
    · rw [tick_reconcile_error m args err hdead2 ho]
      exact inv_reconcileDead_any m.db.deadEntities m.db hInv
    · cases u
      rw [tick_reconcile_ok m args hdead2 ho]
      exact dispatch_inv args m.systems _ hok
        (inv_set_dead _ [] List.nodup_nil
          (inv_reconcileDead_any m.db.deadEntities m.db hInv))

/-- C3 counterexample: from the invariant-satisfying state reached by
`add_component_to_entity(c, 1)` on a fresh Manager (a component of type
7 on entity 1), `new_entity()` allocates id 1 again and overwrites the
row with an empty dict while the type-7 index still lists entity 1:
entity 1 is in the index but its row no longer holds type 7, so the
bidirectional invariant is broken by a Manager operation. -/
theorem new_entity_breaks_invariant :
    Inv (addComponentToEntity ⟨7, 0⟩ 1 DB.empty) ∧
    (newEntity [] (addComponentToEntity ⟨7, 0⟩ 1 DB.empty)).2.components 7
      = some [1] ∧
    (newEntity [] (addComponentToEntity ⟨7, 0⟩ 1 DB.empty)).2.entities 1
      = some [] ∧
    ¬Inv (newEntity [] (addComponentToEntity ⟨7, 0⟩ 1 DB.empty)).2 := by
  refine ⟨inv_addComponentToEntity DB.empty ⟨7, 0⟩ 1 inv_empty, rfl, rfl, ?_⟩
  intro h
  obtain ⟨r, hr, hdg⟩ := h.idxToRow 7 1 [1] rfl (by simp)
  have h0 : (newEntity [] (addComponentToEntity ⟨7, 0⟩ 1 DB.empty)).2.entities 1
      = some [] := rfl
  rw [h0] at hr
  cases hr
  simp [dget] at hdg

/-- C3 (amended): the bidirectional-consistency invariant (together with
non-emptiness of index sets and the structural well-formedness Python
guarantees for dicts and sets) is preserved by `clear_database`,
`add_component_to_entity`, `remove_component_from_entity`,
`remove_entity` (both modes, also on their error paths), `process`
(when each registered system's `process` preserves it), `add_system`
and `remove_system`; `new_entity` preserves it provided the allocated
id does not already have a table row, which can fail only after
`add_component_to_entity` was called with an id above the counter. -/
theorem invariant_preservation :
    (∀ db : DB, Inv (clearDatabase db)) ∧
    (∀ (db : DB) (c : PyObj) (e : Nat), Inv db →
      Inv (addComponentToEntity c e db)) ∧
    (∀ (db : DB) (cs : List PyObj), Inv db →
      db.entities (db.nextEntityId + 1) = none → Inv (newEntity cs db).2) ∧
    (∀ (db : DB) (T e : Nat), Inv db →
      Inv (removeComponentFromEntity T e db).2) ∧
    (∀ (db : DB) (e : Nat) (imm : Bool), Inv db →
      Inv (removeEntity e imm db).2) ∧
    (∀ (m : Manager) (args : List Nat), Inv m.db → SystemsOk m →
      Inv ((tick m args).2.1).db) ∧
    (∀ (m : Manager) (s : PySystem), Inv m.db → Inv (addSystem s m).db) ∧
    (∀ (m : Manager) (T : Nat), Inv m.db → Inv (removeSystem T m).db) :=
  ⟨fun db => inv_clearDatabase db,
    fun db c e h => inv_addComponentToEntity db c e h,
    fun db cs h hf => inv_newEntity db cs h hf,
    fun db T e h => inv_removeComponentFromEntity db T e h,
    fun db e imm h => inv_removeEntity db e imm h,
    fun m args h hok => inv_tick m args h hok,
    fun _ _ h => h,
    fun _ _ h => h⟩

theorem invariant_preservation_witness :
    Inv (addComponentToEntity ⟨7, 0⟩ 3 DB.empty) ∧
    Inv (newEntity [⟨7, 1⟩] DB.empty).2 ∧
    Inv ((tick Manager.empty []).2.1).db := by
  obtain ⟨-, h2, h3, -, -, h6, -, -⟩ := invariant_preservation
  refine ⟨h2 DB.empty ⟨7, 0⟩ 3 inv_empty, h3 DB.empty [⟨7, 1⟩] inv_empty rfl, ?_⟩
  exact h6 Manager.empty [] inv_empty
    (fun s hs => absurd hs (List.not_mem_nil s))

theorem intersectAll_cons (s : List Nat) (rest : List (List Nat)) :
    intersectAll (s :: rest) =
      s.filter (fun e => rest.all (fun t => t.contains e)) := rfl

/-- C4: for a non-empty list of component types that all have an index,
`get_components` succeeds and yields exactly the entities in the
intersection of the index sets — each exactly once (duplicate-free),
no extras, no omissions — and pairs each entity with its component
instances in the order of the requested types (position `i` of the
yielded list is the component `get_component_from_entity` returns for
the `i`-th requested type). -/
theorem query_many_exact (db : DB) (tys : List Nat)
    (hInv : Inv db) (hne : tys ≠ [])
    (hidx : ∀ T ∈ tys, (db.components T).isSome = true) :
    ∃ out, getComponents tys db = .ok out ∧
      (out.map Prod.fst).Nodup ∧
      (∀ e, e ∈ out.map Prod.fst ↔
        ∀ T ∈ tys, ∃ s, db.components T = some s ∧ e ∈ s) ∧
      (∀ e cs, (e, cs) ∈ out → cs.length = tys.length ∧
        ∀ i, (hi : i < tys.length) → (hc : i < cs.length) →
          getComponentFromEntity (tys.get ⟨i, hi⟩) e db = .ok (cs.get ⟨i, hc⟩)) := by
  rcases tys with _ | ⟨T0, tysr⟩
  · exact absurd rfl hne
  have hlook := lookupIndexes_all_some db (T0 :: tysr) hidx
  have hmemf : ∀ T, T ∈ T0 :: tysr → ∀ x : Nat,
      (x ∈ (db.components T).getD [] ↔
        ∃ s, db.components T = some s ∧ x ∈ s) := by
    intro T hT x
    have h0 := hidx T hT
    rcases hcc : db.components T with _ | s
    · rw [hcc] at h0
      cases h0
    · constructor
      · intro hx
        exact ⟨s, rfl, hx⟩
      · rintro ⟨s2, hs2, hx2⟩
        cases hs2
        exact hx2
  set interL := intersectAll ((T0 :: tysr).map
    fun T => (db.components T).getD []) with hinterL
  have hmemI : ∀ x, x ∈ interL ↔
      ∀ T ∈ T0 :: tysr, ∃ s, db.components T = some s ∧ x ∈ s := by
    intro x
    rw [hinterL, List.map_cons, mem_intersectAll_cons]
    constructor
    · rintro ⟨hx0, hxall⟩ T hT
      rcases List.mem_cons.1 hT with h | h
      · subst h
        exact (hmemf T (List.mem_cons_self T tysr) x).1 hx0
      · exact (hmemf T hT x).1 (hxall _ (List.mem_map_of_mem _ h))
    · intro hall
      constructor
      · exact (hmemf T0 (List.mem_cons_self T0 tysr) x).2
          (hall T0 (List.mem_cons_self T0 tysr))
      · intro t ht
        obtain ⟨T, hT, rfl⟩ := List.mem_map.1 ht
        exact (hmemf T (List.mem_cons_of_mem T0 hT) x).2
          (hall T (List.mem_cons_of_mem T0 hT))
  have hrow : ∀ x ∈ interL, (collectRow db x (T0 :: tysr)).isSome = true := by
    intro x hx
    have hargs : ∀ T ∈ T0 :: tysr, ∃ c, getComponentFromEntity T x db = .ok c := by
      intro T hT
      obtain ⟨s, hs, hxs⟩ := (hmemI x).1 hx T hT
      obtain ⟨r, hr, hdg⟩ := hInv.idxToRow T x s hs hxs
      rcases hdgc : dget r T with _ | c
      · rw [hdgc] at hdg
        cases hdg
      · exact ⟨c, by simp [getComponentFromEntity, hr, hdgc]⟩
    obtain ⟨cs, hcs⟩ := collectRow_isSome db x (T0 :: tysr) hargs
    rw [hcs]
    rfl
  refine ⟨qmLoop db (T0 :: tysr) interL, ?_, ?_, ?_, ?_⟩
  · rw [getComponents.eq_def, hlook, hinterL]
  · rw [qmLoop_map_fst db _ interL hrow, hinterL, List.map_cons, intersectAll_cons]
    have hnd0 : ((db.components T0).getD []).Nodup := by
      rcases hc0 : db.components T0 with _ | s0
      · simp
      · exact hInv.idxNodup T0 s0 hc0
    exact hnd0.filter _
  · intro x
    rw [qmLoop_map_fst db _ interL hrow]
    exact hmemI x
  · intro x cs hmem
    obtain ⟨hxl, hcr⟩ := qmLoop_mem db (T0 :: tysr) interL x cs hmem
    exact collectRow_eq_some_spec db x (T0 :: tysr) cs hcr

/-- Concrete database for query examples: entity 1 has components of
types 7 and 8, entity 2 has a component of type 7. -/
def dbqW : DB :=
  addComponentToEntity ⟨8, 2⟩ 1
    (addComponentToEntity ⟨7, 1⟩ 1
      (addComponentToEntity ⟨7, 3⟩ 2 DB.empty))

theorem query_many_exact_witness :
    ∃ out, getComponents [7, 8] dbqW = .ok out ∧
      (out.map Prod.fst).Nodup ∧
      (∀ e, e ∈ out.map Prod.fst ↔
        ∀ T ∈ [7, 8], ∃ s, dbqW.components T = some s ∧ e ∈ s) ∧
      (∀ e cs, (e, cs) ∈ out → cs.length = ([7, 8] : List Nat).length ∧
        ∀ i, (hi : i < ([7, 8] : List Nat).length) → (hc : i < cs.length) →
          getComponentFromEntity (([7, 8] : List Nat).get ⟨i, hi⟩) e dbqW
            = .ok (cs.get ⟨i, hc⟩)) :=
  query_many_exact dbqW [7, 8]
    (inv_addComponentToEntity _ _ _
      (inv_addComponentToEntity _ _ _
        (inv_addComponentToEntity _ _ _ inv_empty)))
    (by simp)
    (by decide)

/-- C5: with a non-empty list of requested types of which at least one
has no index set, `get_components` returns an empty sequence rather
than raising: the KeyError from the index comprehension is caught by
the `except KeyError: pass` around the generator body. -/
theorem query_many_missing_index (db : DB) (tys : List Nat) (T : Nat)
    (hne : tys ≠ []) (hT : T ∈ tys) (hnone : db.components T = none) :
    getComponents tys db = .ok [] := by
  rcases tys with _ | ⟨T0, tysr⟩
  · exact absurd rfl hne
  rw [getComponents.eq_def, lookupIndexes_none db (T0 :: tysr) T hT hnone]

theorem query_many_missing_index_witness :
    getComponents [7] DB.empty = .ok [] :=
  query_many_missing_index DB.empty [7] 7 (by simp) (by simp) rfl

theorem queryOneLoop_entities_congr (T : Nat) (db1 db2 : DB)
    (h : db1.entities = db2.entities) :
    ∀ l, queryOneLoop T db1 l = queryOneLoop T db2 l
  | [] => rfl
  | e :: es => by
    simp only [queryOneLoop]
    rw [h, queryOneLoop_entities_congr T db1 db2 h es]

theorem getComponent_congr (T : Nat) (db1 db2 : DB)
    (he : db1.entities = db2.entities)
    (hc : db1.components = db2.components) :
    getComponent T db1 = getComponent T db2 := by
  simp only [getComponent, hc]
  exact queryOneLoop_entities_congr T db1 db2 he _

theorem collectRow_congr (db1 db2 : DB) (he : db1.entities = db2.entities)
    (e : Nat) : ∀ tys, collectRow db1 e tys = collectRow db2 e tys
  | [] => rfl
  | T :: ts => by
    simp only [collectRow]
    rw [he, collectRow_congr db1 db2 he e ts]

theorem qmLoop_congr (db1 db2 : DB) (he : db1.entities = db2.entities)
    (tys : List Nat) : ∀ l, qmLoop db1 tys l = qmLoop db2 tys l
  | [] => rfl
  | e :: es => by
    simp only [qmLoop]
    rw [collectRow_congr db1 db2 he e tys, qmLoop_congr db1 db2 he tys es]

theorem lookupIndexes_congr (db1 db2 : DB)
    (hc : db1.components = db2.components) :
    ∀ tys, lookupIndexes db1 tys = lookupIndexes db2 tys
  | [] => rfl
  | T :: ts => by
    simp only [lookupIndexes]
    rw [hc, lookupIndexes_congr db1 db2 hc ts]

theorem getComponents_congr (db1 db2 : DB)
    (he : db1.entities = db2.entities)
    (hc : db1.components = db2.components) (tys : List Nat) :
    getComponents tys db1 = getComponents tys db2 := by
  rcases tys with _ | ⟨T0, ts⟩
  · rfl
  · rcases hl : lookupIndexes db2 (T0 :: ts) with _ | sets
    · have h1 : lookupIndexes db1 (T0 :: ts) = none := by
        rw [lookupIndexes_congr db1 db2 hc, hl]
      rw [getComponents.eq_def, getComponents.eq_def]
      simp only [h1, hl]
    · have h1 : lookupIndexes db1 (T0 :: ts) = some sets := by
        rw [lookupIndexes_congr db1 db2 hc, hl]
      rw [getComponents.eq_def, getComponents.eq_def]
      simp only [h1, hl]
      rw [qmLoop_congr db1 db2 he (T0 :: ts) (intersectAll sets)]

theorem collectRow_cons_no_row (db : DB) (e T0 : Nat) (ts : List Nat)
    (h : db.entities e = none) : collectRow db e (T0 :: ts) = none := by
  simp [collectRow, h]

/-- C6: destroying a live entity with `immediate=false` leaves the
entity table and the component index untouched — `has_component`,
`get_component` and `get_components` answer exactly as before — until
`process` (the tick) runs; after one tick (here with no registered
systems, so that no system re-adds components), the id's table row is
gone, the id is in no index set, and no query yields it. -/
theorem deferred_destroy_semantics (m m1 m2 : Manager) (id : Nat)
    (r : List (Nat × PyObj)) (args : List Nat)
    (hInv : Inv m.db) (hsys : m.systems = [])
    (hid : m.db.entities id = some r) (hr : r ≠ [])
    (hpend : ∀ d ∈ m.db.deadEntities, (m.db.entities d).isSome = true)
    (hm1 : m1 = { m with db := (removeEntity id false m.db).2 })
    (hm2 : m2 = (tick m1 args).2.1) :
    (removeEntity id false m.db).1 = .ok () ∧
    m1.db.entities = m.db.entities ∧
    m1.db.components = m.db.components ∧
    (∀ e2 T, hasComponent e2 T m1.db = hasComponent e2 T m.db) ∧
    (∀ T, getComponent T m1.db = getComponent T m.db) ∧
    (∀ tys, getComponents tys m1.db = getComponents tys m.db) ∧
    (tick m1 args).1 = .ok () ∧
    m2.db.entities id = none ∧
    (∀ T s, m2.db.components T = some s → id ∉ s) ∧
    (∀ T out, getComponent T m2.db = .ok out → ∀ c, (id, c) ∉ out) ∧
    (∀ tys out, getComponents tys m2.db = .ok out → ∀ cs, (id, cs) ∉ out) := by
  have hm1db : m1.db = { m.db with deadEntities := sadd m.db.deadEntities id } := by
    rw [hm1]
    rfl
  have hm1sys : m1.systems = [] := by
    rw [hm1]
    exact hsys
  have hInv1 : Inv m1.db := by
    rw [hm1db]
    exact inv_removeEntity_deferred m.db id hInv
  have hnd1 : m1.db.deadEntities.Nodup := by
    rw [hm1db]
    exact nodup_sadd _ _ hInv.deadNodup
  have hall1 : ∀ d ∈ m1.db.deadEntities, (m1.db.entities d).isSome = true := by
    rw [hm1db]
    intro d hd
    rcases (mem_sadd _ _ _).1 hd with h | h
    · exact hpend d h
    · subst h
      show (m.db.entities d).isSome = true
      rw [hid]
      rfl
  have hne1 : m1.db.deadEntities.isEmpty = false := by
    rw [hm1db]
    exact isEmpty_false_of_ne_nil _ (sadd_ne_nil _ _)
  obtain ⟨q1, qInv, q3, q4, q5, q6⟩ :=
    reconcileDead_spec m1.db.deadEntities m1.db hInv1 hnd1 hall1
  have htick := tick_reconcile_ok m1 args hne1 q1
  rw [hm1sys] at htick
  set db2 : DB :=
    { (reconcileDead m1.db.deadEntities m1.db).2 with deadEntities := [] }
    with hdb2
  have htick2 : tick m1 args =
      (.ok (), ({ db := db2, systems := [] } : Manager), []) := by
    rw [htick]
    rfl
  have hid1 : id ∈ m1.db.deadEntities := by
    rw [hm1db]
    exact (mem_sadd _ _ _).2 (Or.inr rfl)
  have hidnone : db2.entities id = none := q3 id hid1
  have qInv2 : Inv db2 :=
    inv_set_dead _ [] List.nodup_nil qInv
  refine ⟨rfl, ?_, ?_, ?_, ?_, ?_, ?_, ?_, ?_, ?_, ?_⟩
  · rw [hm1db]
  · rw [hm1db]
  · intro e2 T
    rw [hm1db]
    rfl
  · intro T
    rw [hm1db]
    exact getComponent_congr T
      { m.db with deadEntities := sadd m.db.deadEntities id } m.db rfl rfl
  · intro tys
    rw [hm1db]
    exact getComponents_congr
      { m.db with deadEntities := sadd m.db.deadEntities id } m.db rfl rfl tys
  · rw [htick2]
  · rw [hm2, htick2]
    exact hidnone
  · intro T s hs hmem
    rw [hm2, htick2] at hs
    replace hs : db2.components T = some s := hs
    obtain ⟨r2, hr2, _⟩ := qInv2.idxToRow T id s hs hmem
    rw [hidnone] at hr2
    cases hr2
  · intro T out hout c hmemo
    rw [hm2, htick2] at hout
    replace hout : queryOneLoop T db2 ((db2.components T).getD []) = .ok out := hout
    have hxl := queryOneLoop_mem_fst T db2 _ out hout id c hmemo
    rcases hcc : db2.components T with _ | s
    · rw [hcc] at hxl
      exact absurd hxl (List.not_mem_nil id)
    · rw [hcc] at hxl
      obtain ⟨r2, hr2, _⟩ := qInv2.idxToRow T id s hcc hxl
      rw [hidnone] at hr2
      cases hr2
  · intro tys out hout cs hmemo
    rw [hm2, htick2] at hout
    replace hout : getComponents tys db2 = .ok out := hout
    rcases tys with _ | ⟨T0, tysr⟩
    · rw [getComponents.eq_def] at hout
      simp at hout
    · rcases hlk : lookupIndexes db2 (T0 :: tysr) with _ | sets
      · rw [getComponents.eq_def] at hout
        simp only [hlk] at hout
        cases hout
        exact absurd hmemo (List.not_mem_nil (id, cs))
      · rw [getComponents.eq_def] at hout
        simp only [hlk] at hout
        cases hout
        obtain ⟨hxl, hcr⟩ :=
          qmLoop_mem db2 (T0 :: tysr) (intersectAll sets) id cs hmemo
        rw [collectRow_cons_no_row db2 id T0 tysr hidnone] at hcr
        cases hcr

/-- A concrete Manager with one component on entity 1 and no systems,
used to instantiate the deferred-destruction theorem. -/
def c6m : Manager :=
  { db := addComponentToEntity ⟨7, 0⟩ 1 DB.empty, systems := [] }

theorem deferred_destroy_semantics_witness :
    ((tick { c6m with db := (removeEntity 1 false c6m.db).2 } []).2.1).db.entities 1
      = none := by
  have h := deferred_destroy_semantics c6m
    { c6m with db := (removeEntity 1 false c6m.db).2 }
    ((tick { c6m with db := (removeEntity 1 false c6m.db).2 } []).2.1)
    1 [(7, ⟨7, 0⟩)] []
    (inv_addComponentToEntity _ _ _ inv_empty)
    rfl rfl (by simp)
    (fun d hd => absurd hd (List.not_mem_nil d))
    rfl rfl
  exact h.2.2.2.2.2.2.2.1

/-- C7 counterexample: with pending-deletion set `{5}` where entity 5
is not in the entity table, and one registered system, `process` raises
KeyError: the pending set is NOT emptied (still `[5]` afterwards) and
no registered system's `process` is invoked (empty invocation log), so
a call to tick does not always destroy-and-empty and then dispatch. -/
def c7m0 : Manager :=
  { db := { DB.empty with deadEntities := [5] }, systems := [noopSystem 9] }

theorem tick_unknown_pending_counterexample :
    (tick c7m0 []).1 = .error .keyError ∧
    (tick c7m0 []).2.1.db.deadEntities = [5] ∧
    (tick c7m0 []).2.2 = [] :=
  ⟨rfl, rfl, rfl⟩

/-- C7 (amended): when every pending entity is present in the entity
table, tick first destroys all pending entities and empties the
pending-deletion set, and only then dispatches: it behaves exactly as
the dispatch loop run from a reconciled database `db1` (pending set
empty, every previously-pending entity destroyed, all other entities
untouched), and when no system's `process` raises, the invocation log
records `process(args)` exactly once per registered system in
registration order with the same arguments.  When some pending entity
is unknown, tick raises KeyError and no system's `process` runs. -/
theorem tick_reconcile_then_dispatch (m : Manager) (args : List Nat)
    (hInv : Inv m.db) :
    ((∀ d ∈ m.db.deadEntities, (m.db.entities d).isSome = true) →
      ∃ db1 : DB,
        db1.deadEntities = [] ∧
        Inv db1 ∧
        (∀ d ∈ m.db.deadEntities, db1.entities d = none) ∧
        (∀ x, x ∉ m.db.deadEntities → db1.entities x = m.db.entities x) ∧
        tick m args = ((dispatch args m.systems db1).1,
          { m with db := (dispatch args m.systems db1).2.1 },
          (dispatch args m.systems db1).2.2) ∧
        ((∀ s ∈ m.systems, ∀ (a : List Nat) (d : DB), (s.proc a d).1 = .ok ()) →
          (tick m args).2.2 = m.systems.map (fun s => (s.tyId, args)))) ∧
    ((∃ d ∈ m.db.deadEntities, m.db.entities d = none) →
      (tick m args).1 = .error .keyError ∧ (tick m args).2.2 = []) := by
  constructor
  · intro hall
    by_cases hdead : m.db.deadEntities.isEmpty = true
    · refine ⟨m.db, (isEmpty_eq_true_iff _).1 hdead, hInv, ?_, fun x _ => rfl, ?_, ?_⟩
      · intro d hd
        rw [(isEmpty_eq_true_iff _).1 hdead] at hd
        exact absurd hd (List.not_mem_nil d)
      · exact tick_no_dead m args hdead
      · intro hok
        rw [tick_no_dead m args hdead]
        exact dispatch_log_all_ok args m.systems m.db hok
    · have hdead2 : m.db.deadEntities.isEmpty = false := Bool.eq_false_iff.2 hdead
      obtain ⟨q1, qInv, q3, q4, q5, q6⟩ :=
        reconcileDead_spec m.db.deadEntities m.db hInv hInv.deadNodup hall
      refine ⟨{ (reconcileDead m.db.deadEntities m.db).2 with deadEntities := [] },
        rfl, inv_set_dead _ [] List.nodup_nil qInv, ?_, ?_, ?_, ?_⟩
      · intro d hd
        exact q3 d hd
      · intro x hx
        exact q4 x hx
      · exact tick_reconcile_ok m args hdead2 q1
      · intro hok
        rw [tick_reconcile_ok m args hdead2 q1]
        exact dispatch_log_all_ok args m.systems _ hok
  · intro hbad
    have hne : m.db.deadEntities.isEmpty = false := by
      obtain ⟨d, hd, _⟩ := hbad
      apply isEmpty_false_of_ne_nil
      intro hnil
      rw [hnil] at hd
      exact List.not_mem_nil d hd
    have hfail := reconcileDead_fail m.db.deadEntities m.db hInv hInv.deadNodup hbad
    rw [tick_reconcile_error m args .keyError hne hfail]
    exact ⟨rfl, rfl⟩

/-- A concrete Manager with entity 1 pending deletion and one
registered no-op system, for the tick reconciliation theorem. -/
def c7mW : Manager :=
  { db := { (addComponentToEntity ⟨7, 0⟩ 1 DB.empty) with deadEntities := [1] },
    systems := [noopSystem 5] }

theorem tick_reconcile_then_dispatch_witness :
    (tick c7mW []).2.2 = [(5, [])] := by
  have hInvW : Inv c7mW.db :=
    inv_set_dead _ [1] (List.nodup_singleton 1)
      (inv_addComponentToEntity _ _ _ inv_empty)
  obtain ⟨db1, h1, h2, h3, h4, h5, h6⟩ :=
    (tick_reconcile_then_dispatch c7mW [] hInvW).1
      (by
        intro d hd
        replace hd : d ∈ [1] := hd
        rw [List.mem_singleton] at hd
        subst hd
        rfl)
  have hlog := h6
    (by
      intro s hs a d
      replace hs : s ∈ [noopSystem 5] := hs
      rw [List.mem_singleton] at hs
      subst hs
      rfl)
  exact hlog

/-- A call in a `create_entity` / `destroy_entity(immediate=true)`
sequence. -/
inductive EOp where
  | create : List PyObj → EOp
  | destroyImm : Nat → EOp

/-- Runs a sequence of `create_entity` / immediate `destroy_entity`
calls on a database and collects the ids returned by the creates, in
call order. -/
def runOps : DB → List EOp → DB × List Nat
  | db, [] => (db, [])
  | db, EOp.create cs :: ops =>
    let p := newEntity cs db
    let q := runOps p.2 ops
    (q.1, p.1 :: q.2)
  | db, EOp.destroyImm e :: ops => runOps (removeEntity e true db).2 ops

theorem nextEntityId_foldl_addComponent (cs : List PyObj) (nid : Nat) :
    ∀ db : DB,
      (cs.foldl (fun d c => addComponentToEntity c nid d) db).nextEntityId
        = db.nextEntityId := by
  induction cs with
  | nil =>
    intro db
    rfl
  | cons c cs ih =>
    intro db
    rw [List.foldl_cons, ih]
    rfl

theorem newEntity_fst (cs : List PyObj) (db : DB) :
    (newEntity cs db).1 = db.nextEntityId + 1 := rfl

theorem newEntity_nextEntityId (cs : List PyObj) (db : DB) :
    (newEntity cs db).2.nextEntityId = db.nextEntityId + 1 := by
  simp only [newEntity]
  rw [nextEntityId_foldl_addComponent]

theorem discardFromIndexes_nextEntityId (e : Nat) :
    ∀ (ts : List Nat) (db : DB),
      (discardFromIndexes e ts db).2.nextEntityId = db.nextEntityId
  | [], db => rfl
  | T :: ts, db => by
    rcases hh : db.components T with _ | s
    · simp [discardFromIndexes, hh]
    · simp only [discardFromIndexes, hh]
      split
      · rw [discardFromIndexes_nextEntityId e ts]
      · rw [discardFromIndexes_nextEntityId e ts]

theorem removeEntity_nextEntityId (e : Nat) (imm : Bool) (db : DB) :
    (removeEntity e imm db).2.nextEntityId = db.nextEntityId := by
  cases imm with
  | false => rfl
  | true =>
    rcases hre : db.entities e with _ | r
    · rw [removeEntity_unknown e db hre]
    · have hd := discardFromIndexes_nextEntityId e (r.map Prod.fst) db
      rcases hdd : discardFromIndexes e (r.map Prod.fst) db with ⟨o, db1⟩
      rw [hdd] at hd
      cases o with
      | ok u =>
        cases u
        simp [removeEntity, hre, hdd]
        exact hd
      | error err =>
        simp [removeEntity, hre, hdd]
        exact hd

theorem runOps_ids (ops : List EOp) :
    ∀ db : DB,
      List.Pairwise (· < ·) (runOps db ops).2 ∧
      (∀ i ∈ (runOps db ops).2, db.nextEntityId < i) := by
  induction ops with
  | nil =>
    intro db
    exact ⟨List.Pairwise.nil, fun i hi => absurd hi (List.not_mem_nil i)⟩
  | cons op ops ih =>
    intro db
    cases op with
    | create cs =>
      obtain ⟨ih1, ih2⟩ := ih (newEntity cs db).2
      constructor
      · show List.Pairwise (· < ·)
          ((newEntity cs db).1 :: (runOps (newEntity cs db).2 ops).2)
        refine List.Pairwise.cons ?_ ih1
        intro j hj
        have hj2 := ih2 j hj
        rw [newEntity_nextEntityId] at hj2
        rw [newEntity_fst]
        omega
      · intro i hi
        replace hi : i ∈ (newEntity cs db).1 :: (runOps (newEntity cs db).2 ops).2 := hi
        rcases List.mem_cons.1 hi with h | h
        · rw [h, newEntity_fst]
          omega
        · have hj2 := ih2 i h
          rw [newEntity_nextEntityId] at hj2
          omega
    | destroyImm e =>
      obtain ⟨ih1, ih2⟩ := ih (removeEntity e true db).2
      refine ⟨ih1, ?_⟩
      intro i hi
      have hj2 := ih2 i hi
      rw [removeEntity_nextEntityId] at hj2
      exact hj2

/-- C8: over any sequence of `create_entity` and immediate
`destroy_entity` calls the ids returned by the creates are pairwise
strictly increasing in call order (so no id is ever returned twice),
and `clear_database` resets the id counter to 0 so the next create
returns the small id 1 again. -/
theorem entity_ids_strictly_increasing (db : DB) (ops : List EOp) :
    List.Pairwise (· < ·) (runOps db ops).2 ∧
    (∀ i ∈ (runOps db ops).2, db.nextEntityId < i) ∧
    (clearDatabase db).nextEntityId = 0 ∧
    (newEntity [] (clearDatabase db)).1 = 1 :=
  ⟨(runOps_ids ops db).1, (runOps_ids ops db).2, rfl, rfl⟩

/-- C9 counterexample: a Manager with entity 1 (one component) pending
deletion and a registered system whose `process` raises.  The tick call
raises, but the state it leaves behind differs from the pre-call state:
reconciliation already destroyed entity 1 and emptied the
pending-deletion set before the system raised, so the error does not
leave the Manager as it was — tick is not atomic. -/
def raisingSystem : PySystem :=
  { tyId := 9, mgrRef := true, proc := fun _ db => (.error .keyError, db) }

def c9m : Manager :=
  { db := { (addComponentToEntity ⟨7, 0⟩ 1 DB.empty) with deadEntities := [1] },
    systems := [raisingSystem] }

theorem tick_partial_mutation_on_error :
    (tick c9m []).1 = .error .keyError ∧
    c9m.db.deadEntities = [1] ∧
    (tick c9m []).2.1.db.deadEntities = [] ∧
    (c9m.db.entities 1).isSome = true ∧
    (tick c9m []).2.1.db.entities 1 = none :=
  ⟨rfl, rfl, rfl, rfl, rfl⟩

/-- C9 (amended): the single-step data operations are atomic on error
from invariant-satisfying states: when `remove_component_from_entity`
or `remove_entity` raises, the database is exactly as before the call
(and the lookups `get_component_from_entity`,
`get_all_components_from_entity`, `has_component` and the query
generators never mutate at all — they do not return a state).  The
tick (`process`) is NOT atomic: see the counterexample, where an error
propagates after reconciliation has already mutated the database. -/
theorem data_ops_atomic_on_error (db : DB) (T e : Nat) (imm : Bool)
    (err : PyErr) (hInv : Inv db) :
    ((removeComponentFromEntity T e db).1 = .error err →
      (removeComponentFromEntity T e db).2 = db) ∧
    ((removeEntity e imm db).1 = .error err →
      (removeEntity e imm db).2 = db) := by
  constructor
  · intro h
    exact removeComponent_error_unchanged db T e hInv err h
  · intro h
    cases imm with
    | false =>
      rw [removeEntity_deferred_eval] at h
      simp at h
    | true =>
      rcases hre : db.entities e with _ | r
      · rw [removeEntity_unknown e db hre]
      · have hok := (removeEntity_imm_spec e db r hInv hre).1
        rw [hok] at h
        simp at h

theorem data_ops_atomic_on_error_witness :
    (removeComponentFromEntity 7 1 DB.empty).2 = DB.empty ∧
    (removeEntity 1 true DB.empty).2 = DB.empty := by
  have h := data_ops_atomic_on_error DB.empty 7 1 true .keyError inv_empty
  exact ⟨h.1 rfl, h.2 rfl⟩

/-- C10: `add_component_to_entity` is a total operation (it returns a
database for every input, never raising), even for an entity id that
was never created or that was destroyed: it lazily installs a table
row for the id, after which `has_component` answers true for that type
and the id appears (with the new instance) in the `get_component`
query for that type. -/
theorem add_component_resurrects (db : DB) (c : PyObj) (e : Nat)
    (hInv : Inv db) :
    hasComponent e c.ty (addComponentToEntity c e db) = .ok true ∧
    (∃ s, (addComponentToEntity c e db).components c.ty = some s ∧ e ∈ s) ∧
    (∃ out, getComponent c.ty (addComponentToEntity c e db) = .ok out ∧
      (e, c) ∈ out) := by
  have hent : (addComponentToEntity c e db).entities e =
      some (dset ((db.entities e).getD []) c.ty c) := by
    rw [addComponent_entities_eval, if_pos rfl]
  have hcomp : (addComponentToEntity c e db).components c.ty =
      some (sadd ((db.components c.ty).getD []) e) := by
    rw [addComponent_components_eval, if_pos rfl]
  refine ⟨?_, ?_, ?_⟩
  · simp [hasComponent, hent, dget_dset_self]
  · exact ⟨sadd ((db.components c.ty).getD []) e, hcomp,
      (mem_sadd _ _ _).2 (Or.inr rfl)⟩
  · obtain ⟨out, hout, hmap, hmem⟩ :=
      getComponent_spec c.ty (addComponentToEntity c e db)
        (inv_addComponentToEntity db c e hInv)
    refine ⟨out, hout, (hmem e c).2 ⟨?_, ?_⟩⟩
    · rw [hcomp]
      show e ∈ sadd ((db.components c.ty).getD []) e
      exact (mem_sadd _ _ _).2 (Or.inr rfl)
    · simp [getComponentFromEntity, hent, dget_dset_self]

theorem add_component_resurrects_witness :
    hasComponent 3 7 (addComponentToEntity ⟨7, 5⟩ 3 DB.empty) = .ok true ∧
    (∃ s, (addComponentToEntity ⟨7, 5⟩ 3 DB.empty).components 7 = some s ∧ 3 ∈ s) ∧
    (∃ out, getComponent 7 (addComponentToEntity ⟨7, 5⟩ 3 DB.empty) = .ok out ∧
      (3, (⟨7, 5⟩ : PyObj)) ∈ out) :=
  add_component_resurrects DB.empty ⟨7, 5⟩ 3 inv_empty

end ECSPy
